import Mathlib

set_option maxRecDepth 8000
set_option maxHeartbeats 1000000

/-!
# Verification of `create-sf2.mjs` (sf2create)

A shallow embedding of the SF2 (SoundFont v2) encoder from
`src/create-sf2.mjs` together with proofs about the claims of its
specification.

Modelling conventions:
* JavaScript numbers are modelled as `Int` (the library only ever handles
  integral values: frame counts, MIDI notes, generator amounts, byte
  offsets).  Audio amplitudes are also carried as `Int`; no claim depends
  on the numeric value of a converted PCM sample, only on buffer lengths,
  which every conversion preserves.
* Optional / possibly-`undefined` fields are `Option _`.  JavaScript's
  `x || d` on strings treats only `""` as falsy, `x ?? d` only
  `undefined`; both are modelled explicitly.
* Strings are Lean `String`s; `charCodeAt` is modelled by the code point
  of the character (they agree on the Basic Multilingual Plane, and all
  strings the encoder writes are ASCII).
* The `DataView` over the pre-allocated `ArrayBuffer` is modelled as the
  list of bytes written so far plus the write cursor; sequential writes
  append, backpatches (`view.setUint32(pos, v)` at an already written
  position) update in place.
-/

/-- JavaScript `a || d` for strings: only `""` is falsy. -/
def jsOrString (a : Option String) (d : String) : String :=
  match a with
  | none => d
  | some s => if s = "" then d else s

/-- JavaScript `a || d` for numbers: only `0` is falsy. -/
def jsOrNat (a : Option Nat) (d : Nat) : Nat :=
  match a with
  | none => d
  | some n => if n = 0 then d else n

/-- `ToUint8` style wrap used by `DataView.setUint8` / `Int16Array` stores. -/
def toByte (v : Int) : Nat := (v.emod 256).toNat

/-- The 16-bit wrap of `Int16Array` element assignment (two's complement). -/
def toInt16 (v : Int) : Int := ((v + 32768).emod 65536) - 32768

/-- 32-bit `ToInt32` wrap (JavaScript bitwise operand conversion). -/
def toInt32 (v : Int) : Int := ((v + 2147483648).emod 4294967296) - 2147483648

/-- `ToUint32` as a natural number (what a `setUint32` stores). -/
def toUint32 (v : Int) : Nat := (v.emod 4294967296).toNat

/-- `ToUint16` as a natural number (what a `setUint16` stores). -/
def toUint16 (v : Int) : Nat := (v.emod 65536).toNat

/-- JavaScript `(keyHi << 8) | keyLo` on 32-bit integers. -/
def jsKeyRange (hi lo : Int) : Int :=
  toInt32 (Int.lor (toInt32 (toInt32 hi * 256)) (toInt32 lo))

/-- Code points of a string (JS `charCodeAt`, ASCII-faithful). -/
def charCodes (s : String) : List Nat := s.data.map Char.toNat

/-- ASCII lower-casing, modelling `String.prototype.toLowerCase` on the
    ASCII names the drum table contains. -/
def jsToLower (s : String) : String :=
  ⟨s.data.map Char.toLower⟩

/-- `s.slice(0, n)` (take the first `n` code units). -/
def jsSlice0 (s : String) (n : Nat) : String := ⟨s.data.take n⟩

/-- `s.slice(0, -n)` (drop the last `n` code units). -/
def jsSliceDropRight (s : String) (n : Nat) : String :=
  ⟨s.data.take (s.data.length - n)⟩

/-- `s.trim()`: strip whitespace from both ends. -/
def jsTrim (s : String) : String :=
  ⟨((s.data.dropWhile Char.isWhitespace).reverse.dropWhile
      Char.isWhitespace).reverse⟩

/-- `s.replaceAll(' ', '')`: remove every space. -/
def jsStripSpaces (s : String) : String := ⟨s.data.filter (· ≠ ' ')⟩

/-- `s.endsWith(suf)`. -/
def jsEndsWith (s suf : String) : Bool := suf.data.isSuffixOf s.data

/-- UTF-8 encoding of one code point (what `TextEncoder.encode` emits). -/
def utf8EncodeCp (c : Nat) : List Nat :=
  if c < 128 then [c]
  else if c < 2048 then [192 + c / 64, 128 + c % 64]
  else if c < 65536 then [224 + c / 4096, 128 + (c / 64) % 64, 128 + c % 64]
  else [240 + c / 262144, 128 + (c / 4096) % 64, 128 + (c / 64) % 64,
        128 + c % 64]

/-- `new TextEncoder().encode(s)`. -/
def utf8Bytes (s : String) : List Nat :=
  s.data.flatMap (fun c => utf8EncodeCp c.toNat)

-- ---------------------------------------------------------------------------
-- Data model (§ input contract of the spec)
-- ---------------------------------------------------------------------------

/-- One user-supplied sample descriptor (an element of `data.samples`). -/
structure UserSample where
  name : Option String := none
  sampleRate : Option Nat := none
  rootNote : Option Int := none
  exclusiveClass : Option Int := none
  loopStart : Option Int := none
  loopEnd : Option Int := none
  channels : Option Nat := none
  rawMonoData : Option (List Int) := none
  rawStereoData : Option (List Int) := none
  deriving Repr, DecidableEq

/-- The top-level `data` record passed to `createSf2File`.  An absent
    `samples` array behaves exactly like an empty one, so it is a plain
    list. -/
structure Sf2Data where
  name : Option String := none
  author : Option String := none
  isDrumKit : Bool := false
  samples : List UserSample := []
  deriving Repr, DecidableEq

/-- A normalized sample record (output of `prepareSamples`).
    `originalPitch` and `exclusiveClass` are `Option`s because the
    placeholder "Empty" record of the empty-input branch does not set
    them (they are `undefined` in the JavaScript object). -/
structure SampleRec where
  name : String
  pcm16 : List Int
  sampleRate : Nat
  rootNote : Int
  originalPitch : Option Int := none
  exclusiveClass : Option Int := none
  loopStart : Int
  loopEnd : Int
  sampleMode : Nat
  sampleLink : Nat
  sampleType : Nat
  channels : Nat
  deriving Repr, DecidableEq

/-- A zone definition (output of `buildInstrumentZones` /
    `buildDrumKitZones`).  Melodic zones carry no `exclusiveClass`
    property in the source, hence `Option`. -/
structure ZoneDef where
  keyLo : Int
  keyHi : Int
  sampleID : Nat
  sampleMode : Nat
  pan : Int
  exclusiveClass : Option Int := none
  deriving Repr, DecidableEq

-- ---------------------------------------------------------------------------
-- GM_DRUM_MAP_DEFAULTS
-- ---------------------------------------------------------------------------

/-- An entry of `GM_DRUM_MAP_DEFAULTS`. -/
structure GmEntry where
  rootNote : Int
  exclusiveClass : Option Int := none
  deriving Repr, DecidableEq

/-- `GM_DRUM_MAP_DEFAULTS[key]`, `none` when the property is absent. -/
def gmDrumMapDefaults (key : String) : Option GmEntry :=
  if key = "acoustic bass drum" then some { rootNote := 35 }
  else if key = "bass drum 1" then some { rootNote := 36 }
  else if key = "kick" then some { rootNote := 36 }
  else if key = "side stick" then some { rootNote := 37 }
  else if key = "acoustic snare" then some { rootNote := 38 }
  else if key = "snare" then some { rootNote := 38 }
  else if key = "hand clap" then some { rootNote := 39 }
  else if key = "clap" then some { rootNote := 39 }
  else if key = "electric snare" then some { rootNote := 40 }
  else if key = "low floor tom" then some { rootNote := 41 }
  else if key = "closed hi-hat" then some { rootNote := 42, exclusiveClass := some 1 }
  else if key = "closedhat" then some { rootNote := 42, exclusiveClass := some 1 }
  else if key = "hat-closed" then some { rootNote := 42, exclusiveClass := some 1 }
  else if key = "high floor tom" then some { rootNote := 43 }
  else if key = "pedal hi-hat" then some { rootNote := 44, exclusiveClass := some 1 }
  else if key = "low tom" then some { rootNote := 45 }
  else if key = "open hi-hat" then some { rootNote := 46, exclusiveClass := some 1 }
  else if key = "openhat" then some { rootNote := 46, exclusiveClass := some 1 }
  else if key = "hat-open" then some { rootNote := 46, exclusiveClass := some 1 }
  else if key = "low-mid tom" then some { rootNote := 47 }
  else if key = "hi-mid tom" then some { rootNote := 48 }
  else if key = "crash cymbal 1" then some { rootNote := 49 }
  else if key = "crash" then some { rootNote := 49 }
  else if key = "high tom" then some { rootNote := 50 }
  else if key = "ride cymbal 1" then some { rootNote := 51 }
  else if key = "ride" then some { rootNote := 51 }
  else if key = "chinese cymbal" then some { rootNote := 52 }
  else if key = "ride bell" then some { rootNote := 53 }
  else if key = "tambourine" then some { rootNote := 54 }
  else if key = "splash cymbal" then some { rootNote := 55 }
  else if key = "cowbell" then some { rootNote := 56 }
  else if key = "crash cymbal 2" then some { rootNote := 57 }
  else if key = "vibraslap" then some { rootNote := 58 }
  else if key = "ride cymbal 2" then some { rootNote := 59 }
  else if key = "hi bongo" then some { rootNote := 60 }
  else if key = "low bongo" then some { rootNote := 61 }
  else if key = "mute hi conga" then some { rootNote := 62 }
  else if key = "open hi conga" then some { rootNote := 63 }
  else if key = "low conga" then some { rootNote := 64 }
  else if key = "high timbale" then some { rootNote := 65 }
  else if key = "low timbale" then some { rootNote := 66 }
  else if key = "high agogo" then some { rootNote := 67 }
  else if key = "low agogo" then some { rootNote := 68 }
  else if key = "cabasa" then some { rootNote := 69 }
  else if key = "maracas" then some { rootNote := 70 }
  else if key = "short whistle" then some { rootNote := 71 }
  else if key = "long whistle" then some { rootNote := 72 }
  else if key = "short guiro" then some { rootNote := 73 }
  else if key = "long guiro" then some { rootNote := 74 }
  else if key = "percussion" then some { rootNote := 75 }
  else if key = "claves" then some { rootNote := 75 }
  else if key = "hi wood block" then some { rootNote := 76 }
  else if key = "low wood block" then some { rootNote := 77 }
  else if key = "mute cuica" then some { rootNote := 78 }
  else if key = "open cuica" then some { rootNote := 79 }
  else if key = "mute triangle" then some { rootNote := 80, exclusiveClass := some 2 }
  else if key = "open triangle" then some { rootNote := 81, exclusiveClass := some 2 }
  else none

-- ---------------------------------------------------------------------------
-- float32ToInt16 (structure-faithful over Int amplitudes)
-- ---------------------------------------------------------------------------

/-- `float32ToInt16`: clamp to `[-1, 1]`, scale negatives by 32768 and
    non-negatives by 32767, store into an `Int16Array`.  Amplitudes are
    modelled as `Int`; every claim depends only on the (preserved)
    length of the buffer. -/
def float32ToInt16 (floatArray : List Int) : List Int :=
  floatArray.map (fun s0 =>
    let s : Int := if s0 > 1 then 1 else if s0 < -1 then -1 else s0
    toInt16 (if s < 0 then s * 32768 else s * 32767))

-- ---------------------------------------------------------------------------
-- prepareSamples
-- ---------------------------------------------------------------------------

/-- The `computeLoop` closure of `prepareSamples`: decide the loop mode
    and bounds from the user descriptor's optional `loopStart`/`loopEnd`
    (`typeof x === 'number'` becomes `Option.isSome`). -/
def computeLoop (userLoopStart userLoopEnd : Option Int) (numFrames : Int) :
    Nat × Int × Int :=
  match userLoopStart, userLoopEnd with
  | some ls, some le =>
      if le > ls ∧ ls ≥ 0 ∧ le ≤ numFrames then (1, ls, le)
      else (0, numFrames - 1, numFrames)
  | _, _ => (0, numFrames - 1, numFrames)

/-- The records pushed for one user sample (the body of the
    `for (const userS of data.samples)` loop, at position `idx`). -/
def prepareOne (isDrumKit : Bool) (idx : Nat) (userS : UserSample) :
    List SampleRec :=
  let name := jsOrString userS.name ("sample_" ++ toString idx)
  let sr := jsOrNat userS.sampleRate 44100
  let rootPE : Int × Option Int × Option Int :=
    if isDrumKit then
      let defaults := gmDrumMapDefaults (jsTrim (jsToLower name))
      let root := (userS.rootNote <|> (defaults.bind (fun d => some d.rootNote))).getD 60
      let exclusiveClass :=
        (userS.exclusiveClass <|> (defaults.bind (fun d => d.exclusiveClass))).getD 0
      (root, some 255, some exclusiveClass)
    else
      let root := userS.rootNote.getD 60
      (root, some root, some 0)
  let root := rootPE.1
  let originalPitch := rootPE.2.1
  let exclusiveClass := rootPE.2.2
  if userS.channels = some 2 then
    -- ----- STEREO sample -----
    let stereo := userS.rawStereoData.getD [0, 0]
    let numFrames := stereo.length / 2
    let leftF := (List.range numFrames).map (fun i => stereo.getD (2 * i) 0)
    let rightF := (List.range numFrames).map (fun i => stereo.getD (2 * i + 1) 0)
    let leftPCM := float32ToInt16 leftF
    let rightPCM := float32ToInt16 rightF
    let mse := computeLoop userS.loopStart userS.loopEnd (numFrames : Int)
    let baseName := jsStripSpaces (jsSlice0 name 17)
    [{ name := baseName ++ "_L"
       pcm16 := leftPCM
       sampleRate := sr
       rootNote := root
       originalPitch := originalPitch
       exclusiveClass := exclusiveClass
       loopStart := mse.2.1
       loopEnd := mse.2.2
       sampleMode := mse.1
       sampleLink := 0
       sampleType := 4  -- left channel
       channels := 2 },
     { name := baseName ++ "_R"
       pcm16 := rightPCM
       sampleRate := sr
       rootNote := root
       originalPitch := originalPitch
       exclusiveClass := exclusiveClass
       loopStart := mse.2.1
       loopEnd := mse.2.2
       sampleMode := mse.1
       sampleLink := 0
       sampleType := 2  -- right channel
       channels := 2 }]
  else
    -- ----- MONO sample -----
    let raw := userS.rawMonoData.getD [0]
    let pcm16 := float32ToInt16 raw
    let numFrames := pcm16.length
    let mse := computeLoop userS.loopStart userS.loopEnd (numFrames : Int)
    [{ name := name
       pcm16 := pcm16
       sampleRate := sr
       rootNote := root
       originalPitch := originalPitch
       exclusiveClass := exclusiveClass
       loopStart := mse.2.1
       loopEnd := mse.2.2
       sampleMode := mse.1
       sampleLink := 0
       sampleType := 1  -- mono
       channels := 1 }]

/-- The main loop of `prepareSamples` over the user descriptors. -/
def prepareLoop (isDrumKit : Bool) : Nat → List UserSample → List SampleRec
  | _, [] => []
  | idx, u :: rest => prepareOne isDrumKit idx u ++ prepareLoop isDrumKit (idx + 1) rest

/-- One step of the stereo-link fix-up loop: inspect positions `i`,
    `i + 1` and mutually link an adjacent `_L`/`_R` pair.  The
    condition reads only `channels` and `name`, which the loop never
    modifies. -/
def fixStep (cur : List SampleRec) (i : Nat) : List SampleRec :=
  match cur[i]?, cur[i + 1]? with
  | some s1, some s2 =>
      if s1.channels = 2 ∧ s2.channels = 2 ∧
         jsEndsWith s1.name "_L" ∧ jsEndsWith s2.name "_R" ∧
         jsSliceDropRight s1.name 2 = jsSliceDropRight s2.name 2 then
        (cur.set i { s1 with sampleLink := i + 1 }).set (i + 1)
          { s2 with sampleLink := i }
      else cur
  | _, _ => cur

/-- The `for (let i = 0; i < allSamples.length - 1; i++)` fix-up loop. -/
def fixLinks (l : List SampleRec) : List SampleRec :=
  (List.range (l.length - 1)).foldl fixStep l

/-- `prepareSamples`: normalize the user's data into sample records. -/
def prepareSamples (data : Sf2Data) : List SampleRec :=
  if data.samples = [] then
    -- Trivial silent sample
    [{ name := "Empty"
       pcm16 := [0, 0, 0, 0]
       sampleRate := 44100
       rootNote := 60
       loopStart := 0
       loopEnd := 1
       sampleMode := 0  -- no loop
       sampleLink := 0
       sampleType := 1  -- mono
       channels := 1 }]
  else
    fixLinks (prepareLoop data.isDrumKit 0 data.samples)

-- ---------------------------------------------------------------------------
-- buildNoteToSampleIndex
-- ---------------------------------------------------------------------------

/-- `diff < bestDiff` where `bestDiff` starts as `Infinity`. -/
def ltOpt (d : Nat) : Option Nat → Bool
  | none => true
  | some b => d < b

/-- The inner scan of `buildNoteToSampleIndex`: over the remaining
    roots, carrying the running index, current best index and best
    distance. -/
def scanBest (note : Int) : List Int → Nat → Nat → Option Nat → Nat
  | [], _, bestSampleID, _ => bestSampleID
  | r :: rs, sIdx, bestSampleID, bestDiff =>
      let diff := (note - r).natAbs
      if ltOpt diff bestDiff then scanBest note rs (sIdx + 1) sIdx (some diff)
      else scanBest note rs (sIdx + 1) bestSampleID bestDiff

/-- `buildNoteToSampleIndex`: for each MIDI note 0–127, the index of the
    first sample whose root note is at minimal absolute distance. -/
def buildNoteToSampleIndex (allSamples : List SampleRec) : List Nat :=
  let roots := allSamples.map (·.rootNote)
  (List.range 128).map (fun (note : Nat) => scanBest (note : Int) roots 0 0 none)

-- ---------------------------------------------------------------------------
-- buildInstrumentZones
-- ---------------------------------------------------------------------------

/-- Fallback record for out-of-range pool indexing (unreachable in the
    encoder's actual executions; JavaScript would crash there). -/
def defaultSampleRec : SampleRec :=
  { name := "", pcm16 := [], sampleRate := 0, rootNote := 0,
    loopStart := 0, loopEnd := 0, sampleMode := 0, sampleLink := 0,
    sampleType := 0, channels := 0 }

/-- `allSamples[i]`. -/
def sampleAt (allSamples : List SampleRec) (i : Nat) : SampleRec :=
  allSamples.getD i defaultSampleRec

/-- `pushZonesForRange` of `buildInstrumentZones`: the zone (and stereo
    companion zone) appended for one key-range run. -/
def pushZonesForRange (allSamples : List SampleRec) (lo hi : Int)
    (sampleID : Nat) : List ZoneDef :=
  let s := sampleAt allSamples sampleID
  let pan : Int := if s.sampleType = 4 then -500
    else if s.sampleType = 2 then 500 else 0
  let mainZone : ZoneDef :=
    { keyLo := lo, keyHi := hi, sampleID := sampleID,
      sampleMode := s.sampleMode, pan := pan }
  if s.sampleType = 4 ∧ s.sampleLink ≠ 0 then
    let rightID := s.sampleLink
    [mainZone,
     { keyLo := lo, keyHi := hi, sampleID := rightID,
       sampleMode := (sampleAt allSamples rightID).sampleMode,
       pan := 500 }]
  else [mainZone]

/-- State of the run-compression loop: current run start, current run's
    sample index, zones accumulated so far. -/
def bizStep (allSamples : List SampleRec) (noteToSample : List Nat)
    (st : Nat × Nat × List ZoneDef) (note : Nat) : Nat × Nat × List ZoneDef :=
  let sID := noteToSample.getD note 0
  if sID ≠ st.2.1 then
    (note, sID, st.2.2 ++ pushZonesForRange allSamples (st.1 : Int) ((note : Int) - 1) st.2.1)
  else st

/-- `buildInstrumentZones`: compress the note map into key-range runs,
    emitting one zone (plus stereo companion) per run. -/
def buildInstrumentZones (allSamples : List SampleRec)
    (noteToSample : List Nat) : List ZoneDef :=
  let init : Nat × Nat × List ZoneDef := (0, noteToSample.getD 0 0, [])
  let fin := (List.range' 1 127).foldl (bizStep allSamples noteToSample) init
  fin.2.2 ++ pushZonesForRange allSamples (fin.1 : Int) 127 fin.2.1

-- ---------------------------------------------------------------------------
-- buildDrumKitZones
-- ---------------------------------------------------------------------------

/-- The body of the `buildDrumKitZones` loop at index `i`. -/
def drumZonesFor (allSamples : List SampleRec) (i : Nat) (s : SampleRec) :
    List ZoneDef :=
  if s.sampleType = 2 then []
  else
    let zone : ZoneDef :=
      { keyLo := s.rootNote, keyHi := s.rootNote, sampleID := i,
        sampleMode := s.sampleMode,
        pan := if s.sampleType = 4 then -500 else 0,
        exclusiveClass := s.exclusiveClass }
    if s.sampleType = 4 ∧ s.sampleLink ≠ 0 then
      let rightID := s.sampleLink
      [zone,
       { keyLo := s.rootNote, keyHi := s.rootNote, sampleID := rightID,
         sampleMode := (sampleAt allSamples rightID).sampleMode,
         pan := 500, exclusiveClass := s.exclusiveClass }]
    else [zone]

/-- Recursion over the pool with its running index. -/
def drumZonesLoop (allSamples : List SampleRec) : Nat → List SampleRec → List ZoneDef
  | _, [] => []
  | i, s :: rest => drumZonesFor allSamples i s ++ drumZonesLoop allSamples (i + 1) rest

/-- `buildDrumKitZones`: one single-key zone per non-right sample (plus
    a stereo companion zone). -/
def buildDrumKitZones (allSamples : List SampleRec) : List ZoneDef :=
  drumZonesLoop allSamples 0 allSamples

-- ---------------------------------------------------------------------------
-- The DataView / cursor writer
-- ---------------------------------------------------------------------------

/-- Writer state: the bytes written so far and the `offset` cursor.  In
    every state the encoder reaches, `offset` equals the number of bytes
    written (`Wf` below), so sequential writes extend the buffer. -/
structure WState where
  buf : List Nat
  offset : Nat
  deriving Repr, DecidableEq

/-- Store one byte at a position of the view.  Positions at or beyond
    the written region extend it (zero-filled), mirroring writes into
    the zero-initialized `ArrayBuffer`. -/
def storeByte (buf : List Nat) (pos : Nat) (b : Nat) : List Nat :=
  if pos < buf.length then buf.set pos (b % 256)
  else buf ++ List.replicate (pos - buf.length) 0 ++ [b % 256]

/-- `view.setUint8(pos, v)` (no cursor movement). -/
def viewSetUint8 (buf : List Nat) (pos : Nat) (v : Int) : List Nat :=
  storeByte buf pos (toByte v)

/-- Little-endian bytes of a 16-bit store. -/
def u16le (v : Int) : List Nat :=
  [toUint16 v % 256, toUint16 v / 256]

/-- Little-endian bytes of a 32-bit store. -/
def u32le (v : Int) : List Nat :=
  [toUint32 v % 256, toUint32 v / 256 % 256, toUint32 v / 65536 % 256,
   toUint32 v / 16777216]

/-- `view.setUint16(pos, v, true)` (no cursor movement). -/
def viewSetUint16 (buf : List Nat) (pos : Nat) (v : Int) : List Nat :=
  storeByte (storeByte buf pos (toUint16 v % 256)) (pos + 1) (toUint16 v / 256)

/-- `view.setUint32(pos, v, true)` (no cursor movement). -/
def viewSetUint32 (buf : List Nat) (pos : Nat) (v : Int) : List Nat :=
  storeByte (storeByte (storeByte (storeByte buf pos (toUint32 v % 256))
    (pos + 1) (toUint32 v / 256 % 256)) (pos + 2) (toUint32 v / 65536 % 256))
    (pos + 3) (toUint32 v / 16777216)

/-- `writeUint8`: store at the cursor, advance by 1. -/
def writeUint8 (st : WState) (v : Int) : WState :=
  { buf := viewSetUint8 st.buf st.offset v, offset := st.offset + 1 }

/-- `writeUint16`: little-endian store at the cursor, advance by 2. -/
def writeUint16 (st : WState) (v : Int) : WState :=
  { buf := viewSetUint16 st.buf st.offset v, offset := st.offset + 2 }

/-- `writeUint32`: little-endian store at the cursor, advance by 4. -/
def writeUint32 (st : WState) (v : Int) : WState :=
  { buf := viewSetUint32 st.buf st.offset v, offset := st.offset + 4 }

/-- `writeFourCC`: write the four character codes of a 4-character tag.
    (The source throws on a tag of any other length; every call site
    passes a 4-character literal, so the error branch is unreachable and
    is modelled as a no-op.) -/
def writeFourCC (st : WState) (cc : String) : WState :=
  if cc.length ≠ 4 then st
  else (charCodes cc).foldl (fun s (c : Nat) => writeUint8 s (c : Int)) st

/-- The 20-byte `charCodeAt`-with-zero-padding name writer used by the
    `phdr` chunk. -/
def writeName20 (st : WState) (s : String) : WState :=
  (List.range 20).foldl
    (fun acc i =>
      writeUint8 acc (if i < s.length then ((charCodes s).getD i 0 : Int) else 0))
    st

/-- `writeFixedAsciiString(view, offset, str, length)` followed by
    `offset += length`: UTF-8 encode the truncated string, write at most
    `length` of its bytes, zero-fill the rest. -/
def writeFixedAscii (st : WState) (s : String) (len : Nat) : WState :=
  let bytes := (utf8Bytes (jsSlice0 s len)).take len
  let st1 := bytes.foldl (fun acc (b : Nat) => writeUint8 acc (b : Int)) st
  (List.range (len - bytes.length)).foldl (fun acc _ => writeUint8 acc 0) st1

/-- `writeChunk(id, payloadFn)`: tag, placeholder length, payload, odd
    padding, length backpatch (the backpatch uses `view.setUint32`
    directly, so the cursor is unchanged by it). -/
def writeChunk (id : String) (payloadFn : WState → WState) (st : WState) : WState :=
  let st1 := writeFourCC st id
  let sizeOffset := st1.offset
  let st2 := writeUint32 st1 0  -- placeholder
  let chunkStart := st2.offset
  let st3 := payloadFn st2
  let chunkEnd := st3.offset
  let chunkSize := chunkEnd - chunkStart
  let st4 := if chunkSize % 2 ≠ 0 then writeUint8 st3 0 else st3
  let chunkSize4 := if chunkSize % 2 ≠ 0 then chunkSize + 1 else chunkSize
  { st4 with buf := viewSetUint32 st4.buf sizeOffset (chunkSize4 : Int) }

-- ---------------------------------------------------------------------------
-- The chunk payloads of createSf2File
-- ---------------------------------------------------------------------------

/-- Write each character code of a string followed by a NUL (the `isng`,
    `INAM` and `IENG` payload loops). -/
def writeZString (st : WState) (s : String) : WState :=
  writeUint8 ((charCodes s).foldl (fun acc (c : Nat) => writeUint8 acc (c : Int)) st) 0

/-- The `LIST INFO` payload. -/
def infoPayload (data : Sf2Data) (st : WState) : WState :=
  let st := writeFourCC st "INFO"
  -- ifil
  let st := writeChunk "ifil" (fun s => writeUint16 (writeUint16 s 2) 1) st
  -- isng
  let st := writeChunk "isng" (fun s => writeZString s "EMU8000") st
  -- INAM
  let st := writeChunk "INAM"
    (fun s => writeZString s (jsOrString data.name "Untitled SoundFont")) st
  -- IENG (author): `data.author || 'sf2create'` is never empty, so the
  -- `if (author)` guard of the source is always taken.
  let author := jsOrString data.author "sf2create"
  writeChunk "IENG" (fun s => writeZString s author) st

/-- The `smpl` payload: every sample's PCM data, each followed by 46
    zero guard frames. -/
def smplPayload (allSamples : List SampleRec) (st : WState) : WState :=
  allSamples.foldl
    (fun acc s =>
      (List.range 46).foldl (fun a _ => writeUint16 a 0)
        (s.pcm16.foldl (fun a v => writeUint16 a v) acc))
    st

/-- The `phdr` payload: one preset record plus the terminal `EOP`. -/
def phdrPayload (data : Sf2Data) (st : WState) : WState :=
  let presetName := jsOrString data.name "Preset"
  let st := writeName20 st presetName
  let st := writeUint16 st 0  -- preset=0
  let st := writeUint16 st (if data.isDrumKit then 128 else 0)
  let st := writeUint16 st 0  -- wPresetBagNdx=0
  let st := writeUint32 st 0  -- dwLibrary
  let st := writeUint32 st 0  -- dwGenre
  let st := writeUint32 st 0  -- dwMorphology
  let st := writeName20 st "EOP"
  let st := writeUint16 st 0
  let st := writeUint16 st 0
  let st := writeUint16 st 2
  let st := writeUint32 st 0
  let st := writeUint32 st 0
  writeUint32 st 0

/-- The `pbag` payload. -/
def pbagPayload (st : WState) : WState :=
  let st := writeUint16 st 0
  let st := writeUint16 st 0
  let st := writeUint16 st 0
  let st := writeUint16 st 0
  let st := writeUint16 st 1
  writeUint16 st 0

/-- The `pmod` / `imod` payload: ten zero bytes. -/
def modPayload (st : WState) : WState :=
  (List.range 10).foldl (fun acc _ => writeUint8 acc 0) st

/-- The `pgen` payload: one instrument generator plus terminal. -/
def pgenPayload (st : WState) : WState :=
  let st := writeUint16 st 41
  let st := writeUint16 st 0
  let st := writeUint16 st 0
  writeUint16 st 0

/-- The `inst` payload. -/
def instPayload (data : Sf2Data) (zoneCount : Nat) (st : WState) : WState :=
  let instName := jsOrString data.name "Instrument"
  let st := writeFixedAscii st instName 20
  let st := writeUint16 st 0  -- wInstBagNdx=0
  let st := writeFixedAscii st "EOI" 20
  writeUint16 st ((zoneCount : Int) + 1)

/-- `z.exclusiveClass > 0` under JavaScript semantics (`undefined > 0`
    is false). -/
def exPos : Option Int → Bool
  | none => false
  | some e => 0 < e

/-- The number of generators the `ibag` loop counts for one zone. -/
def bagGenCount (isDrumKit : Bool) (z : ZoneDef) : Nat :=
  2 + (if z.sampleMode = 1 then 1 else 0) + (if z.pan ≠ 0 then 1 else 0) +
    (if isDrumKit ∧ exPos z.exclusiveClass then 1 else 0)

/-- The `ibag` payload: the running generator offset per bag. -/
def ibagPayload (isDrumKit : Bool) (zoneDefs : List ZoneDef) (st : WState) : WState :=
  let genOffset : Nat := 0
  -- Bag #0 => global instrument region
  let st := writeUint16 st (genOffset : Int)
  let st := writeUint16 st 0
  let genOffset := if isDrumKit then genOffset + 2 else genOffset
  -- Bags for each zone
  let fin := zoneDefs.foldl
    (fun (acc : WState × Nat) z =>
      let st := writeUint16 acc.1 (acc.2 : Int)
      let st := writeUint16 st 0
      (st, acc.2 + bagGenCount isDrumKit z))
    (st, genOffset)
  -- terminal
  writeUint16 (writeUint16 fin.1 (fin.2 : Int)) 0

/-- The generators the `igen` loop writes for one zone, in emission
    order (the sample reference, operator 53, is last). -/
def igenZoneRecs (isDrumKit : Bool) (z : ZoneDef) : List (Int × Int) :=
  [((43 : Int), jsKeyRange z.keyHi z.keyLo)]
  ++ (if z.sampleMode = 1 then [((54 : Int), (1 : Int))] else [])
  ++ (if z.pan ≠ 0 then [((17 : Int), z.pan)] else [])
  ++ (if isDrumKit ∧ exPos z.exclusiveClass then
        [((57 : Int), z.exclusiveClass.getD 0)] else [])
  ++ [((53 : Int), (z.sampleID : Int))]

/-- The global instrument generators the `igen` chunk starts with in
    drum-kit mode. -/
def igenGlobals (isDrumKit : Bool) : List (Int × Int) :=
  if isDrumKit then [((56 : Int), (0 : Int)), ((38 : Int), (12000 : Int))] else []

/-- Write a list of (operator, amount) generator records. -/
def writeGenRecs (st : WState) (recs : List (Int × Int)) : WState :=
  recs.foldl (fun acc r => writeUint16 (writeUint16 acc r.1) r.2) st

/-- The `igen` payload: global generators (drum kits), per-zone
    generators, terminal record. -/
def igenPayload (isDrumKit : Bool) (zoneDefs : List ZoneDef) (st : WState) : WState :=
  let st := writeGenRecs st (igenGlobals isDrumKit)
  let st := zoneDefs.foldl
    (fun acc z => writeGenRecs acc (igenZoneRecs isDrumKit z)) st
  writeUint16 (writeUint16 st 0) 0

/-- One `shdr` record for sample `s` whose payload begins at absolute
    frame `startPos`. -/
def shdrWriteRec (st : WState) (s : SampleRec) (startPos : Nat) : WState :=
  let numFrames := s.pcm16.length
  let endPos := startPos + numFrames
  let realLoopStart := (startPos : Int) + s.loopStart
  let realLoopEnd := (startPos : Int) + s.loopEnd
  let st := writeFixedAscii st s.name 20
  let st := writeUint32 st (startPos : Int)
  let st := writeUint32 st (endPos : Int)
  let st := writeUint32 st realLoopStart
  let st := writeUint32 st realLoopEnd
  let st := writeUint32 st (s.sampleRate : Int)
  let st := writeUint8 st (s.originalPitch.getD 0)
  let st := writeUint8 st 0  -- pitchCorrection
  let st := writeUint16 st (s.sampleLink : Int)
  writeUint16 st (s.sampleType : Int)

/-- The `shdr` payload: one record per pooled sample (the loop carries
    the running `startPos`, advanced by `numFrames + 46` per record)
    plus the terminal `EOS` record. -/
def shdrPayload (allSamples : List SampleRec) (st : WState) : WState :=
  let fin := allSamples.foldl
    (fun (acc : WState × Nat) s =>
      (shdrWriteRec acc.1 s acc.2, acc.2 + s.pcm16.length + 46))
    (st, 0)
  let st := fin.1
  let st := writeFixedAscii st "EOS" 20
  let st := (List.range 5).foldl (fun acc _ => writeUint32 acc 0) st
  let st := writeUint8 st 0
  let st := writeUint8 st 0
  let st := writeUint16 st 0
  writeUint16 st 0

/-- The `LIST sdta` payload. -/
def sdtaPayload (allSamples : List SampleRec) (st : WState) : WState :=
  writeChunk "smpl" (smplPayload allSamples) (writeFourCC st "sdta")

/-- The `LIST pdta` payload. -/
def pdtaPayload (data : Sf2Data) (allSamples : List SampleRec)
    (zoneDefs : List ZoneDef) (st : WState) : WState :=
  let st := writeFourCC st "pdta"
  let st := writeChunk "phdr" (phdrPayload data) st
  let st := writeChunk "pbag" pbagPayload st
  let st := writeChunk "pmod" modPayload st
  let st := writeChunk "pgen" pgenPayload st
  let st := writeChunk "inst" (instPayload data zoneDefs.length) st
  let st := writeChunk "ibag" (ibagPayload data.isDrumKit zoneDefs) st
  let st := writeChunk "imod" modPayload st
  let st := writeChunk "igen" (igenPayload data.isDrumKit zoneDefs) st
  writeChunk "shdr" (shdrPayload allSamples) st

/-- `createSf2File`: the full encoder.  Returns the bytes of the
    returned `Blob` (`buffer.slice(0, fileEnd)` after the RIFF length
    backpatch). -/
def createSf2File (data : Sf2Data) : List Nat :=
  let allSamples := prepareSamples data
  let zoneDefs :=
    if data.isDrumKit then buildDrumKitZones allSamples
    else buildInstrumentZones allSamples (buildNoteToSampleIndex allSamples)
  let st : WState := { buf := [], offset := 0 }
  let st := writeFourCC st "RIFF"
  let totalSizeOffset := st.offset
  let st := writeUint32 st 0  -- placeholder
  let st := writeFourCC st "sfbk"
  let st := writeChunk "LIST" (infoPayload data) st
  let st := writeChunk "LIST" (sdtaPayload allSamples) st
  let st := writeChunk "LIST" (pdtaPayload data allSamples zoneDefs) st
  let fileEnd := st.offset
  let riffSize := fileEnd - 8
  let buf := viewSetUint32 st.buf totalSizeOffset (riffSize : Int)
  buf.take fileEnd

-- ---------------------------------------------------------------------------
-- Specification-level byte lists (what each writer fragment emits)
-- ---------------------------------------------------------------------------

/-- The bytes `writeFourCC` emits for a 4-character tag. -/
def ccB (s : String) : List Nat := (charCodes s).map (· % 256)

/-- The bytes `writeZString` emits. -/
def zstrB (s : String) : List Nat := (charCodes s).map (· % 256) ++ [0]

/-- The bytes `writeName20` emits. -/
def name20B (s : String) : List Nat :=
  (List.range 20).map
    (fun i => (if i < s.length then (charCodes s).getD i 0 else 0) % 256)

/-- The bytes `writeFixedAscii` emits. -/
def fixedAsciiB (s : String) (len : Nat) : List Nat :=
  let bytes := (utf8Bytes (jsSlice0 s len)).take len
  bytes.map (· % 256) ++ List.replicate (len - bytes.length) 0

/-- Word-align a payload with a single zero byte. -/
def padB (p : List Nat) : List Nat :=
  if p.length % 2 ≠ 0 then p ++ [0] else p

/-- The bytes `writeChunk` emits: tag, little-endian padded payload
    length, padded payload. -/
def chunkB (id : String) (p : List Nat) : List Nat :=
  ccB id ++ u32le ((padB p).length : Int) ++ padB p

/-- The bytes of the `LIST INFO` chunk payload. -/
def infoB (data : Sf2Data) : List Nat :=
  ccB "INFO"
  ++ chunkB "ifil" (u16le 2 ++ u16le 1)
  ++ chunkB "isng" (zstrB "EMU8000")
  ++ chunkB "INAM" (zstrB (jsOrString data.name "Untitled SoundFont"))
  ++ chunkB "IENG" (zstrB (jsOrString data.author "sf2create"))

/-- The bytes of the `smpl` chunk payload. -/
def smplB (allSamples : List SampleRec) : List Nat :=
  allSamples.flatMap
    (fun s => s.pcm16.flatMap u16le ++ (List.range 46).flatMap (fun _ => u16le 0))

/-- The bytes of the `LIST sdta` chunk payload. -/
def sdtaB (allSamples : List SampleRec) : List Nat :=
  ccB "sdta" ++ chunkB "smpl" (smplB allSamples)

/-- The bytes of the `phdr` chunk payload. -/
def phdrB (data : Sf2Data) : List Nat :=
  name20B (jsOrString data.name "Preset")
  ++ u16le 0 ++ u16le (if data.isDrumKit then 128 else 0) ++ u16le 0
  ++ u32le 0 ++ u32le 0 ++ u32le 0
  ++ name20B "EOP"
  ++ u16le 0 ++ u16le 0 ++ u16le 2 ++ u32le 0 ++ u32le 0 ++ u32le 0

/-- The bytes of the `pbag` chunk payload. -/
def pbagB : List Nat :=
  u16le 0 ++ u16le 0 ++ u16le 0 ++ u16le 0 ++ u16le 1 ++ u16le 0

/-- The bytes of the `pmod` / `imod` chunk payloads. -/
def modB : List Nat := (List.range 10).map (fun _ => 0)

/-- The bytes of the `pgen` chunk payload. -/
def pgenB : List Nat := u16le 41 ++ u16le 0 ++ u16le 0 ++ u16le 0

/-- The bytes of the `inst` chunk payload. -/
def instB (data : Sf2Data) (zoneCount : Nat) : List Nat :=
  fixedAsciiB (jsOrString data.name "Instrument") 20
  ++ u16le 0 ++ fixedAsciiB "EOI" 20 ++ u16le ((zoneCount : Int) + 1)

/-- The generator-index values written by the `ibag` loop after bag 0,
    accumulating `bagGenCount` per zone; the final entry is the
    terminal bag's index. -/
def ibagNdxsAux (isDrumKit : Bool) : Nat → List ZoneDef → List Nat
  | g, [] => [g]
  | g, z :: rest => g :: ibagNdxsAux isDrumKit (g + bagGenCount isDrumKit z) rest

/-- Every `wGenNdx` value written into the `ibag` chunk, in order:
    bag 0, one per zone, then the terminal bag. -/
def ibagNdxs (isDrumKit : Bool) (zoneDefs : List ZoneDef) : List Nat :=
  0 :: ibagNdxsAux isDrumKit (if isDrumKit then 2 else 0) zoneDefs

/-- The bytes of the `ibag` chunk payload: each bag is its generator
    index and a zero modulator index. -/
def ibagB (isDrumKit : Bool) (zoneDefs : List ZoneDef) : List Nat :=
  (ibagNdxs isDrumKit zoneDefs).flatMap (fun n => u16le (n : Int) ++ u16le 0)

/-- Serialization of one (operator, amount) generator record. -/
def genRecB (r : Int × Int) : List Nat := u16le r.1 ++ u16le r.2

/-- The bytes of the `igen` chunk payload. -/
def igenB (isDrumKit : Bool) (zoneDefs : List ZoneDef) : List Nat :=
  (igenGlobals isDrumKit).flatMap genRecB
  ++ zoneDefs.flatMap (fun z => (igenZoneRecs isDrumKit z).flatMap genRecB)
  ++ genRecB (0, 0)

/-- The bytes of one `shdr` record for sample `s` whose pool payload
    starts at absolute frame `startPos`: the four offset fields hold
    `startPos`, `startPos + frameCount`, `startPos + loopStart` and
    `startPos + loopEnd`. -/
def shdrRecB (s : SampleRec) (startPos : Nat) : List Nat :=
  fixedAsciiB s.name 20
  ++ u32le (startPos : Int)
  ++ u32le ((startPos : Int) + s.pcm16.length)
  ++ u32le ((startPos : Int) + s.loopStart)
  ++ u32le ((startPos : Int) + s.loopEnd)
  ++ u32le (s.sampleRate : Int)
  ++ [toByte (s.originalPitch.getD 0)] ++ [0]
  ++ u16le (s.sampleLink : Int) ++ u16le (s.sampleType : Int)

/-- The per-sample part of the `shdr` payload, accumulating the pool
    offset by `frameCount + 46` per record. -/
def shdrLoopB : Nat → List SampleRec → List Nat
  | _, [] => []
  | startPos, s :: rest =>
      shdrRecB s startPos ++ shdrLoopB (startPos + s.pcm16.length + 46) rest

/-- The terminal `EOS` record of the `shdr` chunk. -/
def shdrEosB : List Nat :=
  fixedAsciiB "EOS" 20 ++ (List.range 5).flatMap (fun _ => u32le 0)
  ++ [0] ++ [0] ++ u16le 0 ++ u16le 0

/-- The bytes of the `shdr` chunk payload. -/
def shdrB (allSamples : List SampleRec) : List Nat :=
  shdrLoopB 0 allSamples ++ shdrEosB

/-- The bytes of the `LIST pdta` chunk payload. -/
def pdtaB (data : Sf2Data) (allSamples : List SampleRec)
    (zoneDefs : List ZoneDef) : List Nat :=
  ccB "pdta"
  ++ chunkB "phdr" (phdrB data)
  ++ chunkB "pbag" pbagB
  ++ chunkB "pmod" modB
  ++ chunkB "pgen" pgenB
  ++ chunkB "inst" (instB data zoneDefs.length)
  ++ chunkB "ibag" (ibagB data.isDrumKit zoneDefs)
  ++ chunkB "imod" modB
  ++ chunkB "igen" (igenB data.isDrumKit zoneDefs)
  ++ chunkB "shdr" (shdrB allSamples)

/-- The zone list `createSf2File` encodes for `data`. -/
def zoneDefsOf (data : Sf2Data) : List ZoneDef :=
  let allSamples := prepareSamples data
  if data.isDrumKit then buildDrumKitZones allSamples
  else buildInstrumentZones allSamples (buildNoteToSampleIndex allSamples)

/-- The complete output of the encoder as a flat byte list: header with
    the backpatched RIFF size, then the three `LIST` chunks. -/
def sf2FileBytes (data : Sf2Data) : List Nat :=
  let allSamples := prepareSamples data
  let zoneDefs := zoneDefsOf data
  let body := chunkB "LIST" (infoB data) ++ chunkB "LIST" (sdtaB allSamples)
    ++ chunkB "LIST" (pdtaB data allSamples zoneDefs)
  ccB "RIFF" ++ u32le ((4 : Int) + body.length) ++ ccB "sfbk" ++ body

/-- Read a little-endian 32-bit field at byte position `pos`. -/
def readU32le (l : List Nat) (pos : Nat) : Nat :=
  l.getD pos 0 + 256 * l.getD (pos + 1) 0 + 65536 * l.getD (pos + 2) 0
  + 16777216 * l.getD (pos + 3) 0

-- ---------------------------------------------------------------------------
-- Writer-state predicates
-- ---------------------------------------------------------------------------

/-- A well-formed writer state: the cursor sits at the end of the bytes
    written so far.  Every state the encoder reaches is well formed. -/
def Wf (st : WState) : Prop := st.buf.length = st.offset

/-- `f` emits exactly the bytes `bs`: run from any well-formed state it
    appends `bs` and advances the cursor by their count. -/
def Emits (f : WState → WState) (bs : List Nat) : Prop :=
  ∀ st, Wf st → f st = { buf := st.buf ++ bs, offset := st.offset + bs.length }

-- ---------------------------------------------------------------------------
-- Helper definitions for the claims
-- ---------------------------------------------------------------------------

/-- The three top-level `LIST` chunks of the output. -/
def sf2BodyB (data : Sf2Data) : List Nat :=
  chunkB "LIST" (infoB data) ++ chunkB "LIST" (sdtaB (prepareSamples data))
  ++ chunkB "LIST" (pdtaB data (prepareSamples data) (zoneDefsOf data))

/-- Collapse consecutive duplicate key ranges (a stereo companion zone
    repeats its main zone's range). -/
def dedupConsec : List (Int × Int) → List (Int × Int)
  | [] => []
  | [a] => [a]
  | a :: b :: t => if a = b then dedupConsec (b :: t) else a :: dedupConsec (b :: t)

/-- The key ranges of a zone list. -/
def zoneRanges (zones : List ZoneDef) : List (Int × Int) :=
  zones.map (fun z => (z.keyLo, z.keyHi))

/-- Whether a range contains a note. -/
def rangeHas (note : Int) (r : Int × Int) : Bool :=
  decide (r.1 ≤ note) && decide (note ≤ r.2)

/-- The run-compression of the note map: the same traversal as
    `buildInstrumentZones`, recording `(keyLo, keyHi, sampleID)` runs
    instead of zones (used to reason about the zone list). -/
def runsStep (noteToSample : List Nat) (st : Nat × Nat × List (Nat × Nat × Nat))
    (note : Nat) : Nat × Nat × List (Nat × Nat × Nat) :=
  let sID := noteToSample.getD note 0
  if sID ≠ st.2.1 then (note, sID, st.2.2 ++ [(st.1, note - 1, st.2.1)]) else st

/-- The key-range runs of the melodic zone builder. -/
def melodicRuns (noteToSample : List Nat) : List (Nat × Nat × Nat) :=
  let init : Nat × Nat × List (Nat × Nat × Nat) := (0, noteToSample.getD 0 0, [])
  let fin := (List.range' 1 127).foldl (runsStep noteToSample) init
  fin.2.2 ++ [(fin.1, 127, fin.2.1)]

/-- `TilesTo runs lo stop`: the runs cover `[lo, stop - 1]` consecutively,
    in order, with no gaps or overlaps. -/
def TilesTo : List (Nat × Nat × Nat) → Nat → Nat → Prop
  | [], lo, stop => lo = stop
  | r :: rest, lo, stop => r.1 = lo ∧ lo ≤ r.2.1 ∧ TilesTo rest (r.2.1 + 1) stop

/-- Adjacency relation of a well-paired pool: a right-channel record
    (sampleType 2) is immediately preceded by a left-channel record
    (sampleType 4) carrying the same root note. -/
def stereoRel (a b : SampleRec) : Prop :=
  b.sampleType = 2 → a.sampleType = 4 ∧ a.rootNote = b.rootNote

/-- The absolute pool start offset of sample `i`: frame counts plus 46
    guard frames of all preceding records. -/
def shdrStartPos (pool : List SampleRec) (i : Nat) : Nat :=
  ((pool.take i).map (fun s => s.pcm16.length + 46)).sum

/-- The empty encoder input (Scenario A). -/
def emptyData : Sf2Data := {}

/-- One stereo sample, all defaults. -/
def stereoData : Sf2Data := { samples := [{ channels := some 2 }] }

/-- Two mono samples with root notes 40 and 70 (Scenario C). -/
def twoMonoData : Sf2Data :=
  { samples := [{ name := some "a", rootNote := some 40 },
                { name := some "b", rootNote := some 70 }] }

/-- Drum kit with two named samples and no explicit root notes
    (Scenario E). -/
def drumKitData : Sf2Data :=
  { isDrumKit := true,
    samples := [{ name := some "kick" }, { name := some "snare" }] }

-- ---------------------------------------------------------------------------
-- Basic lemmas about the writer primitives
-- ---------------------------------------------------------------------------

theorem toByte_lt (v : Int) : toByte v < 256 := by
  have h1 : 0 ≤ v.emod 256 := Int.emod_nonneg _ (by norm_num)
  have h2 : v.emod 256 < 256 := Int.emod_lt_of_pos _ (by norm_num)
  unfold toByte
  omega

theorem toUint16_lt (v : Int) : toUint16 v < 65536 := by
  have h1 : 0 ≤ v.emod 65536 := Int.emod_nonneg _ (by norm_num)
  have h2 : v.emod 65536 < 65536 := Int.emod_lt_of_pos _ (by norm_num)
  unfold toUint16
  omega

theorem toUint32_lt (v : Int) : toUint32 v < 4294967296 := by
  have h1 : 0 ≤ v.emod 4294967296 := Int.emod_nonneg _ (by norm_num)
  have h2 : v.emod 4294967296 < 4294967296 := Int.emod_lt_of_pos _ (by norm_num)
  unfold toUint32
  omega

theorem storeByte_at_length (buf : List Nat) (b : Nat) :
    storeByte buf buf.length b = buf ++ [b % 256] := by
  unfold storeByte
  simp

theorem length_storeByte_of_lt {buf : List Nat} {pos : Nat} (b : Nat)
    (h : pos < buf.length) : (storeByte buf pos b).length = buf.length := by
  unfold storeByte
  rw [if_pos h]
  simp

theorem storeByte_append_inner (a b : List Nat) (pos c : Nat)
    (h : pos < b.length) :
    storeByte (a ++ b) (a.length + pos) c = a ++ storeByte b pos c := by
  unfold storeByte
  have hlt : a.length + pos < (a ++ b).length := by simp; omega
  rw [if_pos hlt, if_pos h, List.set_append_right]
  · simp
  · omega

theorem writeUint8_emits (v : Int) :
    Emits (fun st => writeUint8 st v) [toByte v] := by
  intro st hwf
  have hlen : st.buf.length = st.offset := hwf
  simp only [writeUint8, viewSetUint8]
  rw [← hlen, storeByte_at_length, Nat.mod_eq_of_lt (toByte_lt v)]
  simp

theorem u16le_lengths (v : Int) :
    toUint16 v % 256 < 256 ∧ toUint16 v / 256 < 256 := by
  have := toUint16_lt v
  omega

theorem writeUint16_emits (v : Int) :
    Emits (fun st => writeUint16 st v) (u16le v) := by
  intro st hwf
  have hlen : st.buf.length = st.offset := hwf
  have h := u16le_lengths v
  simp only [writeUint16, viewSetUint16]
  rw [← hlen, storeByte_at_length, Nat.mod_eq_of_lt h.1]
  have h2 : st.buf.length + 1 = (st.buf ++ [toUint16 v % 256]).length := by simp
  rw [h2, storeByte_at_length, Nat.mod_eq_of_lt h.2]
  simp [u16le]

theorem u32le_lengths (v : Int) :
    toUint32 v % 256 < 256 ∧ toUint32 v / 256 % 256 < 256 ∧
    toUint32 v / 65536 % 256 < 256 ∧ toUint32 v / 16777216 < 256 := by
  have := toUint32_lt v
  omega

theorem writeUint32_emits (v : Int) :
    Emits (fun st => writeUint32 st v) (u32le v) := by
  intro st hwf
  have hlen : st.buf.length = st.offset := hwf
  have h := u32le_lengths v
  simp only [writeUint32, viewSetUint32]
  rw [← hlen, storeByte_at_length, Nat.mod_eq_of_lt h.1]
  have h2 : st.buf.length + 1 = (st.buf ++ [toUint32 v % 256]).length := by simp
  rw [h2, storeByte_at_length, Nat.mod_eq_of_lt h.2.1]
  have h3 : st.buf.length + 2 =
      (st.buf ++ [toUint32 v % 256] ++ [toUint32 v / 256 % 256]).length := by simp
  rw [h3, storeByte_at_length, Nat.mod_eq_of_lt h.2.2.1]
  have h4 : st.buf.length + 3 =
      (st.buf ++ [toUint32 v % 256] ++ [toUint32 v / 256 % 256]
        ++ [toUint32 v / 65536 % 256]).length := by simp
  rw [h4, storeByte_at_length, Nat.mod_eq_of_lt h.2.2.2]
  simp [u32le]

theorem emits_id : Emits (fun st => st) [] := by
  intro st _
  simp

theorem Emits.comp {f g : WState → WState} {a b : List Nat}
    (hf : Emits f a) (hg : Emits g b) :
    Emits (fun st => g (f st)) (a ++ b) := by
  intro st hwf
  have hwf2 : Wf { buf := st.buf ++ a, offset := st.offset + a.length } := by
    simp only [Wf] at hwf ⊢
    simp [hwf]
  show g (f st) = { buf := st.buf ++ (a ++ b), offset := st.offset + (a ++ b).length }
  rw [hf st hwf, hg _ hwf2]
  simp
  omega

theorem Emits.wf {f : WState → WState} {a : List Nat} (hf : Emits f a)
    {st : WState} (hwf : Wf st) : Wf (f st) := by
  rw [hf st hwf]
  simp [Wf] at hwf ⊢
  omega

theorem emits_foldl {α : Type} (step : WState → α → WState)
    (g : α → List Nat) (l : List α)
    (h : ∀ x ∈ l, Emits (fun st => step st x) (g x)) :
    Emits (fun st => l.foldl step st) (l.flatMap g) := by
  induction l with
  | nil => simpa using emits_id
  | cons x xs ih =>
      have hx : Emits (fun st => step st x) (g x) := h x (by simp)
      have hxs : Emits (fun st => xs.foldl step st) (xs.flatMap g) :=
        ih (fun y hy => h y (by simp [hy]))
      have := hx.comp hxs
      simpa using this

theorem toByte_natCast (c : Nat) : toByte (c : Int) = c % 256 := by
  show ((c : Int) % 256).toNat = c % 256
  omega

theorem flatMap_toByte_natCast (l : List Nat) :
    l.flatMap (fun c => [toByte (c : Int)]) = l.map (· % 256) := by
  induction l with
  | nil => simp
  | cons x xs ih =>
      rw [List.flatMap_cons, ih]
      simp [toByte_natCast]

theorem writeFourCC_emits (cc : String) (h4 : cc.length = 4) :
    Emits (fun st => writeFourCC st cc) (ccB cc) := by
  have h := emits_foldl (fun s (c : Nat) => writeUint8 s (c : Int))
    (fun c => [toByte (c : Int)]) (charCodes cc)
    (fun c _ => writeUint8_emits (c : Int))
  rw [flatMap_toByte_natCast] at h
  intro st hwf
  show writeFourCC st cc = _
  unfold writeFourCC
  rw [if_neg (by simp [h4])]
  exact h st hwf

theorem writeZString_emits (s : String) :
    Emits (fun st => writeZString st s) (zstrB s) := by
  have h := emits_foldl (fun st (c : Nat) => writeUint8 st (c : Int))
    (fun c => [toByte (c : Int)]) (charCodes s)
    (fun c _ => writeUint8_emits (c : Int))
  have hc := h.comp (writeUint8_emits 0)
  rw [flatMap_toByte_natCast] at hc
  have hz : toByte 0 = 0 := by decide
  rw [hz] at hc
  intro st hwf
  show writeZString st s = _
  unfold writeZString
  exact hc st hwf

theorem writeName20_emits (s : String) :
    Emits (fun st => writeName20 st s) (name20B s) := by
  have h := emits_foldl
    (fun acc (i : Nat) =>
      writeUint8 acc (if i < s.length then ((charCodes s).getD i 0 : Int) else 0))
    (fun i => [toByte (if i < s.length then ((charCodes s).getD i 0 : Int) else 0)])
    (List.range 20)
    (fun i _ => writeUint8_emits _)
  have hb : (List.range 20).flatMap
      (fun i => [toByte (if i < s.length then ((charCodes s).getD i 0 : Int) else 0)])
      = name20B s := by
    unfold name20B
    induction List.range 20 with
    | nil => simp
    | cons x xs ih =>
        simp only [List.flatMap_cons, List.map_cons, ih]
        by_cases hx : x < s.length
        · simp [hx, toByte_natCast]
        · simp only [hx, ite_false]
          norm_num
          decide
  rw [hb] at h
  intro st hwf
  show writeName20 st s = _
  unfold writeName20
  exact h st hwf

theorem writeFixedAscii_emits (s : String) (len : Nat) :
    Emits (fun st => writeFixedAscii st s len) (fixedAsciiB s len) := by
  have h1 := emits_foldl (fun acc (b : Nat) => writeUint8 acc (b : Int))
    (fun b => [toByte (b : Int)]) ((utf8Bytes (jsSlice0 s len)).take len)
    (fun b _ => writeUint8_emits _)
  have h2 := emits_foldl (fun acc (_ : Nat) => writeUint8 acc 0)
    (fun _ => [toByte 0])
    (List.range (len - ((utf8Bytes (jsSlice0 s len)).take len).length))
    (fun b _ => writeUint8_emits _)
  have hc := h1.comp h2
  have hb : ((utf8Bytes (jsSlice0 s len)).take len).flatMap (fun b => [toByte (b : Int)])
      ++ (List.range (len - ((utf8Bytes (jsSlice0 s len)).take len).length)).flatMap
        (fun _ => [toByte 0]) = fixedAsciiB s len := by
    unfold fixedAsciiB
    rw [flatMap_toByte_natCast]
    congr 1
    have hz : toByte 0 = 0 := by decide
    rw [hz]
    generalize len - ((utf8Bytes (jsSlice0 s len)).take len).length = k
    induction k with
    | zero => simp
    | succ n ih => simp [List.range_succ, ih, List.replicate_succ']
  rw [hb] at hc
  intro st hwf
  show writeFixedAscii st s len = _
  unfold writeFixedAscii
  exact hc st hwf

theorem storeByte_cons_zero (x : Nat) (xs : List Nat) (c : Nat) :
    storeByte (x :: xs) 0 c = c % 256 :: xs := by
  unfold storeByte
  simp

theorem storeByte_cons_succ (x : Nat) (xs : List Nat) (n c : Nat) :
    storeByte (x :: xs) (n + 1) c = x :: storeByte xs n c := by
  unfold storeByte
  by_cases h : n < xs.length
  · rw [if_pos (by simp; omega), if_pos h]
    simp
  · rw [if_neg (by simp; omega), if_neg h]
    simp

theorem storeByte_append_ge (a b : List Nat) (pos c : Nat)
    (h : a.length ≤ pos) :
    storeByte (a ++ b) pos c = a ++ storeByte b (pos - a.length) c := by
  induction a generalizing pos with
  | nil => simp
  | cons x xs ih =>
      match pos, h with
      | pos + 1, h =>
          have hxs : xs.length ≤ pos := by simp at h; omega
          have := ih pos hxs
          simp only [List.cons_append, storeByte_cons_succ, this]
          simp only [List.length_cons]
          congr 3
          omega

theorem viewSetUint32_patch (a : List Nat) (p0 p1 p2 p3 : Nat) (r : List Nat)
    (v : Int) :
    viewSetUint32 (a ++ (p0 :: p1 :: p2 :: p3 :: r)) a.length v
      = a ++ (u32le v ++ r) := by
  have h := u32le_lengths v
  unfold viewSetUint32
  rw [storeByte_append_ge _ _ _ _ (by omega)]
  rw [show a.length - a.length = 0 by omega, storeByte_cons_zero]
  rw [storeByte_append_ge _ _ _ _ (by omega)]
  rw [show a.length + 1 - a.length = 1 by omega, storeByte_cons_succ,
    storeByte_cons_zero]
  rw [storeByte_append_ge _ _ _ _ (by omega)]
  rw [show a.length + 2 - a.length = 2 by omega, storeByte_cons_succ,
    storeByte_cons_succ, storeByte_cons_zero]
  rw [storeByte_append_ge _ _ _ _ (by omega)]
  rw [show a.length + 3 - a.length = 3 by omega, storeByte_cons_succ,
    storeByte_cons_succ, storeByte_cons_succ, storeByte_cons_zero]
  rw [Nat.mod_eq_of_lt h.1, Nat.mod_eq_of_lt h.2.1, Nat.mod_eq_of_lt h.2.2.1,
    Nat.mod_eq_of_lt h.2.2.2]
  rfl

theorem u32le_length (v : Int) : (u32le v).length = 4 := by
  simp [u32le]

theorem ccB_length (s : String) : (ccB s).length = s.length := by
  show ((s.data.map Char.toNat).map (· % 256)).length = s.data.length
  simp

theorem writeChunk_emits {payload : WState → WState} {B : List Nat}
    (id : String) (h4 : id.length = 4) (hp : Emits payload B) :
    Emits (writeChunk id payload) (chunkB id B) := by
  intro st hwf
  have hlen : st.buf.length = st.offset := hwf
  have hcc : writeFourCC st id
      = { buf := st.buf ++ ccB id, offset := st.offset + (ccB id).length } :=
    writeFourCC_emits id h4 st hwf
  have hwf1 : Wf (writeFourCC st id) := by
    rw [hcc]
    simp [Wf, hlen]
  have hu : writeUint32 (writeFourCC st id) 0
      = { buf := (writeFourCC st id).buf ++ u32le 0,
          offset := (writeFourCC st id).offset + (u32le 0).length } :=
    writeUint32_emits 0 _ hwf1
  have hwf2 : Wf (writeUint32 (writeFourCC st id) 0) := (writeUint32_emits 0).wf hwf1
  have hpl : payload (writeUint32 (writeFourCC st id) 0)
      = { buf := (writeUint32 (writeFourCC st id) 0).buf ++ B,
          offset := (writeUint32 (writeFourCC st id) 0).offset + B.length } :=
    hp _ hwf2
  simp only [writeChunk]
  rw [hcc] at hu hpl ⊢
  rw [hu] at hpl ⊢
  rw [hpl]
  simp only []
  have hu32l : (u32le 0).length = 4 := by decide
  have hu32v : u32le 0 = [0, 0, 0, 0] := by decide
  have hsz : st.offset + (ccB id).length + (u32le 0).length + B.length
      - (st.offset + (ccB id).length + (u32le 0).length) = B.length := by omega
  rw [hsz]
  have hpos : st.offset + (ccB id).length = ((st.buf ++ ccB id) : List Nat).length := by
    simp [hlen]
  by_cases hodd : B.length % 2 ≠ 0
  · rw [if_pos hodd, if_pos hodd]
    have hwr : writeUint8 (
        { buf := st.buf ++ ccB id ++ u32le 0 ++ B,
          offset := st.offset + (ccB id).length + (u32le 0).length + B.length }) 0
        = { buf := (st.buf ++ ccB id ++ u32le 0 ++ B) ++ [toByte 0],
            offset := st.offset + (ccB id).length + (u32le 0).length + B.length + 1 } := by
      refine writeUint8_emits 0 _ ?_
      simp [Wf, hlen]
      omega
    rw [hwr]
    simp only []
    have hb0 : toByte 0 = 0 := by decide
    have harr : st.buf ++ ccB id ++ u32le 0 ++ B ++ [toByte 0]
        = (st.buf ++ ccB id) ++ (0 :: 0 :: 0 :: 0 :: (B ++ [0])) := by
      rw [hb0, hu32v]
      simp
    rw [harr, hpos, viewSetUint32_patch]
    unfold chunkB padB
    rw [if_pos hodd]
    simp only [WState.mk.injEq]
    constructor
    · simp [List.append_assoc]
    · simp [List.length_append, ccB_length, h4, u32le_length]
      omega
  · rw [if_neg hodd, if_neg hodd]
    have harr : st.buf ++ ccB id ++ u32le 0 ++ B
        = (st.buf ++ ccB id) ++ (0 :: 0 :: 0 :: 0 :: B) := by
      rw [hu32v]
      simp
    rw [harr, hpos, viewSetUint32_patch]
    unfold chunkB padB
    rw [if_neg hodd]
    simp only [WState.mk.injEq]
    constructor
    · simp [List.append_assoc]
    · simp [List.length_append, ccB_length, h4, u32le_length]
      omega

theorem infoPayload_emits (d : Sf2Data) : Emits (infoPayload d) (infoB d) := by
  have h1 := writeFourCC_emits "INFO" (by decide)
  have hifil := writeChunk_emits "ifil" (by decide)
    ((writeUint16_emits 2).comp (writeUint16_emits 1))
  have hisng := writeChunk_emits "isng" (by decide) (writeZString_emits "EMU8000")
  have hinam := writeChunk_emits "INAM" (by decide)
    (writeZString_emits (jsOrString d.name "Untitled SoundFont"))
  have hieng := writeChunk_emits "IENG" (by decide)
    (writeZString_emits (jsOrString d.author "sf2create"))
  have hcomp := (((h1.comp hifil).comp hisng).comp hinam).comp hieng
  intro st hwf
  exact hcomp st hwf

theorem smplBlock_emits (s : SampleRec) :
    Emits
      (fun acc => (List.range 46).foldl (fun a _ => writeUint16 a 0)
        (s.pcm16.foldl (fun a v => writeUint16 a v) acc))
      (s.pcm16.flatMap u16le ++ (List.range 46).flatMap (fun _ => u16le 0)) := by
  have h1 := emits_foldl (fun a (v : Int) => writeUint16 a v) u16le s.pcm16
    (fun v _ => writeUint16_emits v)
  have h2 := emits_foldl (fun a (_ : Nat) => writeUint16 a 0) (fun _ => u16le 0)
    (List.range 46) (fun v _ => writeUint16_emits 0)
  exact h1.comp h2

theorem smplPayload_emits (pool : List SampleRec) :
    Emits (smplPayload pool) (smplB pool) := by
  have h := emits_foldl
    (fun acc s => (List.range 46).foldl (fun a _ => writeUint16 a 0)
      (SampleRec.pcm16 s |>.foldl (fun a v => writeUint16 a v) acc))
    (fun s => s.pcm16.flatMap u16le ++ (List.range 46).flatMap (fun _ => u16le 0))
    pool (fun s _ => smplBlock_emits s)
  intro st hwf
  exact h st hwf

theorem sdtaPayload_emits (pool : List SampleRec) :
    Emits (sdtaPayload pool) (sdtaB pool) := by
  have h1 := writeFourCC_emits "sdta" (by decide)
  have h2 := writeChunk_emits "smpl" (by decide) (smplPayload_emits pool)
  exact fun st hwf => (h1.comp h2) st hwf

theorem phdrPayload_emits (d : Sf2Data) : Emits (phdrPayload d) (phdrB d) := by
  have h := ((((((((((((((writeName20_emits (jsOrString d.name "Preset")).comp
    (writeUint16_emits 0)).comp
    (writeUint16_emits (if d.isDrumKit then 128 else 0))).comp
    (writeUint16_emits 0)).comp (writeUint32_emits 0)).comp
    (writeUint32_emits 0)).comp (writeUint32_emits 0)).comp
    (writeName20_emits "EOP")).comp (writeUint16_emits 0)).comp
    (writeUint16_emits 0)).comp (writeUint16_emits 2)).comp
    (writeUint32_emits 0)).comp (writeUint32_emits 0)).comp
    (writeUint32_emits 0))
  intro st hwf
  exact h st hwf

theorem pbagPayload_emits : Emits pbagPayload pbagB := by
  have h := (((((writeUint16_emits 0).comp (writeUint16_emits 0)).comp
    (writeUint16_emits 0)).comp (writeUint16_emits 0)).comp
    (writeUint16_emits 1)).comp (writeUint16_emits 0)
  intro st hwf
  exact h st hwf

theorem modPayload_emits : Emits modPayload modB := by
  have h := emits_foldl (fun acc (_ : Nat) => writeUint8 acc 0)
    (fun _ => [toByte 0]) (List.range 10) (fun _ _ => writeUint8_emits 0)
  have hb : (List.range 10).flatMap (fun _ => [toByte 0]) = modB := by decide
  rw [hb] at h
  intro st hwf
  exact h st hwf

theorem pgenPayload_emits : Emits pgenPayload pgenB := by
  have h := (((writeUint16_emits 41).comp (writeUint16_emits 0)).comp
    (writeUint16_emits 0)).comp (writeUint16_emits 0)
  intro st hwf
  exact h st hwf

theorem instPayload_emits (d : Sf2Data) (zc : Nat) :
    Emits (instPayload d zc) (instB d zc) := by
  have h := (((writeFixedAscii_emits (jsOrString d.name "Instrument") 20).comp
    (writeUint16_emits 0)).comp (writeFixedAscii_emits "EOI" 20)).comp
    (writeUint16_emits ((zc : Int) + 1))
  intro st hwf
  exact h st hwf

theorem ibagAux_emits (drum : Bool) (zones : List ZoneDef) (g : Nat) :
    Emits
      (fun st =>
        let fin := zones.foldl
          (fun (acc : WState × Nat) z =>
            (writeUint16 (writeUint16 acc.1 (acc.2 : Int)) 0,
             acc.2 + bagGenCount drum z))
          (st, g)
        writeUint16 (writeUint16 fin.1 (fin.2 : Int)) 0)
      ((ibagNdxsAux drum g zones).flatMap (fun n => u16le (n : Int) ++ u16le 0)) := by
  induction zones generalizing g with
  | nil =>
      have h := (writeUint16_emits (g : Int)).comp (writeUint16_emits 0)
      intro st hwf
      have := h st hwf
      simpa [ibagNdxsAux] using this
  | cons z zs ih =>
      have hstep := (writeUint16_emits (g : Int)).comp (writeUint16_emits 0)
      have h := hstep.comp (ih (g + bagGenCount drum z))
      intro st hwf
      have := h st hwf
      simpa [ibagNdxsAux, List.append_assoc] using this

theorem ibagPayload_emits (drum : Bool) (zones : List ZoneDef) :
    Emits (ibagPayload drum zones) (ibagB drum zones) := by
  have hstep := (writeUint16_emits ((0 : Nat) : Int)).comp (writeUint16_emits 0)
  have h := hstep.comp (ibagAux_emits drum zones (if drum then 2 else 0))
  intro st hwf
  have := h st hwf
  show ibagPayload drum zones st = _
  unfold ibagPayload
  by_cases hd : drum = true
  · subst hd
    simp only [if_pos rfl] at this ⊢
    rw [this]
    simp [ibagB, ibagNdxs, List.append_assoc]
  · have hd2 : drum = false := by
      cases drum
      · rfl
      · exact absurd rfl hd
    subst hd2
    simp only [if_neg (by decide : ¬False)] at this ⊢
    rw [this]
    simp [ibagB, ibagNdxs, List.append_assoc]

theorem writeGenRecs_emits (recs : List (Int × Int)) :
    Emits (fun st => writeGenRecs st recs) (recs.flatMap genRecB) := by
  have h := emits_foldl
    (fun acc (r : Int × Int) => writeUint16 (writeUint16 acc r.1) r.2)
    genRecB recs
    (fun r _ => (writeUint16_emits r.1).comp (writeUint16_emits r.2))
  intro st hwf
  exact h st hwf

theorem igenPayload_emits (drum : Bool) (zones : List ZoneDef) :
    Emits (igenPayload drum zones) (igenB drum zones) := by
  have h1 := writeGenRecs_emits (igenGlobals drum)
  have h2 := emits_foldl (fun acc z => writeGenRecs acc (igenZoneRecs drum z))
    (fun z => (igenZoneRecs drum z).flatMap genRecB) zones
    (fun z _ => writeGenRecs_emits (igenZoneRecs drum z))
  have h3 := (writeUint16_emits 0).comp (writeUint16_emits 0)
  have h := (h1.comp h2).comp h3
  intro st hwf
  refine (h st hwf).trans ?_
  simp [igenB, genRecB, List.append_assoc]

theorem toByte_zero : toByte 0 = 0 := by decide

theorem shdrWriteRec_emits (s : SampleRec) (sp : Nat) :
    Emits (fun st => shdrWriteRec st s sp) (shdrRecB s sp) := by
  have h := (((((((((writeFixedAscii_emits s.name 20).comp
    (writeUint32_emits (sp : Int))).comp
    (writeUint32_emits ((sp : Int) + s.pcm16.length))).comp
    (writeUint32_emits ((sp : Int) + s.loopStart))).comp
    (writeUint32_emits ((sp : Int) + s.loopEnd))).comp
    (writeUint32_emits (s.sampleRate : Int))).comp
    (writeUint8_emits (s.originalPitch.getD 0))).comp
    (writeUint8_emits 0)).comp
    (writeUint16_emits (s.sampleLink : Int))).comp
    (writeUint16_emits (s.sampleType : Int))
  intro st hwf
  have hh : shdrWriteRec st s sp = _ := h st hwf
  refine hh.trans ?_
  simp [shdrRecB, toByte_zero, List.append_assoc]

attribute [irreducible] shdrWriteRec

theorem shdrFold_emits (pool : List SampleRec) (sp : Nat) :
    Emits
      (fun st =>
        (pool.foldl
          (fun (acc : WState × Nat) s =>
            (shdrWriteRec acc.1 s acc.2, acc.2 + s.pcm16.length + 46))
          (st, sp)).1)
      (shdrLoopB sp pool) := by
  induction pool generalizing sp with
  | nil =>
      intro st hwf
      show (List.foldl _ (st, sp) []).1 = _
      simp [shdrLoopB]
  | cons s rest ih =>
      have h := (shdrWriteRec_emits s sp).comp (ih (sp + s.pcm16.length + 46))
      intro st hwf
      refine (h st hwf).trans ?_
      simp [shdrLoopB]

theorem shdrPayload_emits (pool : List SampleRec) :
    Emits (shdrPayload pool) (shdrB pool) := by
  have h2 := emits_foldl (fun acc (_ : Nat) => writeUint32 acc 0)
    (fun _ => u32le 0) (List.range 5) (fun _ _ => writeUint32_emits 0)
  have h := (((((shdrFold_emits pool 0).comp
    (writeFixedAscii_emits "EOS" 20)).comp h2).comp
    (writeUint8_emits 0)).comp ((writeUint8_emits 0).comp
    ((writeUint16_emits 0).comp (writeUint16_emits 0))))
  intro st hwf
  refine (h st hwf).trans ?_
  simp [shdrB, shdrEosB, toByte_zero, List.append_assoc]

theorem pdtaPayload_emits (d : Sf2Data) (pool : List SampleRec)
    (zones : List ZoneDef) :
    Emits (pdtaPayload d pool zones) (pdtaB d pool zones) := by
  have h := ((((((((((writeFourCC_emits "pdta" (by decide)).comp
    (writeChunk_emits "phdr" (by decide) (phdrPayload_emits d))).comp
    (writeChunk_emits "pbag" (by decide) pbagPayload_emits)).comp
    (writeChunk_emits "pmod" (by decide) modPayload_emits)).comp
    (writeChunk_emits "pgen" (by decide) pgenPayload_emits)).comp
    (writeChunk_emits "inst" (by decide) (instPayload_emits d zones.length))).comp
    (writeChunk_emits "ibag" (by decide) (ibagPayload_emits d.isDrumKit zones))).comp
    (writeChunk_emits "imod" (by decide) modPayload_emits)).comp
    (writeChunk_emits "igen" (by decide) (igenPayload_emits d.isDrumKit zones))).comp
    (writeChunk_emits "shdr" (by decide) (shdrPayload_emits pool)))
  intro st hwf
  exact h st hwf

theorem patch4 (a : List Nat) (ha : a.length = 4) (r : List Nat) (v : Int) :
    viewSetUint32 (a ++ (0 :: 0 :: 0 :: 0 :: r)) 4 v = a ++ (u32le v ++ r) := by
  rw [← ha, viewSetUint32_patch]

theorem take_patch_eq (hd tail : List Nat) (h4 : hd.length = 4) (v : Int) :
    List.take ((hd ++ (0 :: 0 :: 0 :: 0 :: tail)).length) (hd ++ (u32le v ++ tail))
      = hd ++ (u32le v ++ tail) := by
  have hlen : (hd ++ (0 :: 0 :: 0 :: 0 :: tail)).length
      = (hd ++ (u32le v ++ tail)).length := by
    simp [u32le_length, h4]
    omega
  rw [hlen, List.take_length]

/-- The encoder output equals the flat serialization `sf2FileBytes`:
    the writer-state pass with its backpatches produces exactly the
    specification-level byte list. -/
theorem createSf2File_eq (d : Sf2Data) : createSf2File d = sf2FileBytes d := by
  have hinfo := writeChunk_emits "LIST" (by decide) (infoPayload_emits d)
  have hsdta := writeChunk_emits "LIST" (by decide)
    (sdtaPayload_emits (prepareSamples d))
  have hpdta := writeChunk_emits "LIST" (by decide)
    (pdtaPayload_emits d (prepareSamples d) (zoneDefsOf d))
  have h := ((((((writeFourCC_emits "RIFF" (by decide)).comp
    (writeUint32_emits 0)).comp
    (writeFourCC_emits "sfbk" (by decide))).comp hinfo).comp hsdta).comp hpdta)
  have happ : writeChunk "LIST" (pdtaPayload d (prepareSamples d) (zoneDefsOf d))
      (writeChunk "LIST" (sdtaPayload (prepareSamples d))
        (writeChunk "LIST" (infoPayload d)
          (writeFourCC (writeUint32 (writeFourCC { buf := [], offset := 0 } "RIFF") 0)
            "sfbk")))
      = { buf := [] ++ (ccB "RIFF" ++ u32le 0 ++ ccB "sfbk"
            ++ chunkB "LIST" (infoB d) ++ chunkB "LIST" (sdtaB (prepareSamples d))
            ++ chunkB "LIST" (pdtaB d (prepareSamples d) (zoneDefsOf d))),
          offset := 0 + (ccB "RIFF" ++ u32le 0 ++ ccB "sfbk"
            ++ chunkB "LIST" (infoB d) ++ chunkB "LIST" (sdtaB (prepareSamples d))
            ++ chunkB "LIST" (pdtaB d (prepareSamples d) (zoneDefsOf d))).length } :=
    h { buf := [], offset := 0 } (by simp [Wf])
  have hoff : (writeFourCC { buf := [], offset := 0 } "RIFF").offset = 4 := by decide
  show (let allSamples := prepareSamples d
        let zoneDefs :=
          if d.isDrumKit then buildDrumKitZones allSamples
          else buildInstrumentZones allSamples (buildNoteToSampleIndex allSamples)
        let st : WState := { buf := [], offset := 0 }
        let st := writeFourCC st "RIFF"
        let totalSizeOffset := st.offset
        let st := writeUint32 st 0
        let st := writeFourCC st "sfbk"
        let st := writeChunk "LIST" (infoPayload d) st
        let st := writeChunk "LIST" (sdtaPayload allSamples) st
        let st := writeChunk "LIST" (pdtaPayload d allSamples zoneDefs) st
        let fileEnd := st.offset
        let riffSize := fileEnd - 8
        let buf := viewSetUint32 st.buf totalSizeOffset (riffSize : Int)
        buf.take fileEnd) = sf2FileBytes d
  have hz : (if d.isDrumKit = true then buildDrumKitZones (prepareSamples d)
      else buildInstrumentZones (prepareSamples d)
        (buildNoteToSampleIndex (prepareSamples d))) = zoneDefsOf d := rfl
  simp only []
  rw [hz]
  rw [happ, hoff]
  simp only [List.nil_append, Nat.zero_add]
  have hr4 : (ccB "RIFF").length = 4 := by decide
  have hu0 : u32le 0 = [0, 0, 0, 0] := by decide
  have hshape : ccB "RIFF" ++ u32le 0 ++ ccB "sfbk" ++ chunkB "LIST" (infoB d)
      ++ chunkB "LIST" (sdtaB (prepareSamples d))
      ++ chunkB "LIST" (pdtaB d (prepareSamples d) (zoneDefsOf d))
      = ccB "RIFF" ++ (0 :: 0 :: 0 :: 0 :: (ccB "sfbk" ++ (chunkB "LIST" (infoB d)
        ++ (chunkB "LIST" (sdtaB (prepareSamples d))
        ++ chunkB "LIST" (pdtaB d (prepareSamples d) (zoneDefsOf d)))))) := by
    rw [hu0]
    simp [List.append_assoc]
  rw [hshape, patch4 _ hr4, take_patch_eq _ _ hr4]
  have hv : ((((ccB "RIFF" ++ (0 :: 0 :: 0 :: 0 :: (ccB "sfbk" ++ (chunkB "LIST" (infoB d)
      ++ (chunkB "LIST" (sdtaB (prepareSamples d))
      ++ chunkB "LIST" (pdtaB d (prepareSamples d) (zoneDefsOf d)))))))).length - 8 : Nat) : Int)
      = (4 : Int) + ((chunkB "LIST" (infoB d) ++ chunkB "LIST" (sdtaB (prepareSamples d))
        ++ chunkB "LIST" (pdtaB d (prepareSamples d) (zoneDefsOf d))).length : Int) := by
    have h1 : (ccB "sfbk").length = 4 := by decide
    simp [hr4, h1]
    omega
  rw [hv]
  show _ = sf2FileBytes d
  simp only [sf2FileBytes]
  simp [List.append_assoc]

theorem toUint32_natCast (n : Nat) : toUint32 (n : Int) = n % 4294967296 := by
  show ((n : Int) % 4294967296).toNat = n % 4294967296
  omega

theorem sf2FileBytes_shape (d : Sf2Data) :
    sf2FileBytes d
      = ccB "RIFF" ++ (u32le ((4 : Int) + (sf2BodyB d).length)
        ++ (ccB "sfbk" ++ sf2BodyB d)) := by
  simp [sf2FileBytes, sf2BodyB, List.append_assoc]

theorem readU32le_cons4 (a0 a1 a2 a3 : Nat) (r : List Nat) (v : Int) :
    readU32le (a0 :: a1 :: a2 :: a3 :: (u32le v ++ r)) 4 = toUint32 v := by
  have hb := toUint32_lt v
  simp [readU32le, u32le, List.getD]
  omega

theorem sf2FileBytes_length (d : Sf2Data) :
    (sf2FileBytes d).length = 12 + (sf2BodyB d).length := by
  rw [sf2FileBytes_shape]
  have h1 : (ccB "RIFF").length = 4 := by decide
  have h2 : (ccB "sfbk").length = 4 := by decide
  simp [h1, h2, u32le_length]
  omega

/-- **C1.**  For every input, the 4-byte little-endian length field
    written immediately after the `RIFF` tag of the returned buffer
    equals the total number of output bytes minus 8 (exactly so for
    any output that fits a 32-bit length, i.e. every output the
    4 MiB-buffered encoder can produce; in general modulo `2^32`, the
    width of the field). -/
theorem claim_C1 (d : Sf2Data) :
    readU32le (createSf2File d) 4
      = ((createSf2File d).length - 8) % 4294967296
    ∧ ((createSf2File d).length ≤ 4294967296 →
        readU32le (createSf2File d) 4 = (createSf2File d).length - 8) := by
  rw [createSf2File_eq]
  have hr : ccB "RIFF" = [82, 73, 70, 70] := by decide
  have hread : readU32le (sf2FileBytes d) 4
      = toUint32 ((4 : Int) + (sf2BodyB d).length) := by
    rw [sf2FileBytes_shape, hr]
    exact readU32le_cons4 _ _ _ _ _ _
  have hcast : ((4 : Int) + ((sf2BodyB d).length : Int))
      = ((4 + (sf2BodyB d).length : Nat) : Int) := by push_cast; ring
  have hlen := sf2FileBytes_length d
  rw [hread, hcast, toUint32_natCast, hlen]
  constructor
  · congr 1
    omega
  · intro hle
    have h := Nat.mod_eq_of_lt
      (show 4 + (sf2BodyB d).length < 4294967296 by omega)
    omega

/-- Witness for C1 at the empty input. -/
theorem claim_C1_witness :
    readU32le (createSf2File emptyData) 4 = (createSf2File emptyData).length - 8 :=
  (claim_C1 emptyData).2 (by rw [createSf2File_eq]; decide)

/-- **C5.**  Loop resolution: numeric loop bounds with
    `loopStart < loopEnd`, `loopStart ≥ 0`, `loopEnd ≤ frameCount` yield
    `sampleMode = 1` with those exact bounds; every other combination of
    the loop inputs raises no error (the function is total) and yields
    `sampleMode = 0`, `loopStart = frameCount - 1`,
    `loopEnd = frameCount`. -/
theorem claim_C5 (userLoopStart userLoopEnd : Option Int) (frameCount : Nat) :
    (∀ a b, userLoopStart = some a → userLoopEnd = some b →
      b > a → a ≥ 0 → b ≤ (frameCount : Int) →
      computeLoop userLoopStart userLoopEnd (frameCount : Int) = (1, a, b))
    ∧ ((¬ ∃ a b, userLoopStart = some a ∧ userLoopEnd = some b ∧
          b > a ∧ a ≥ 0 ∧ b ≤ (frameCount : Int)) →
        computeLoop userLoopStart userLoopEnd (frameCount : Int)
          = (0, (frameCount : Int) - 1, (frameCount : Int))) := by
  constructor
  · intro a b ha hb h1 h2 h3
    subst ha
    subst hb
    simp [computeLoop, h1, h2, h3]
  · intro hne
    match userLoopStart, userLoopEnd with
    | none, _ => rfl
    | some a, none => rfl
    | some a, some b =>
        simp only [computeLoop]
        rw [if_neg]
        intro ⟨h1, h2, h3⟩
        exact hne ⟨a, b, rfl, rfl, h1, h2, h3⟩

/-- Witness for C5: Scenario D bounds (loop 100..9900 of 10000 frames)
    and an out-of-range pair falling back to the default. -/
theorem claim_C5_witness :
    computeLoop (some 100) (some 9900) ((10000 : Nat) : Int) = (1, 100, 9900)
    ∧ computeLoop (some 5) (some 200) ((100 : Nat) : Int) = (0, 99, 100) := by
  constructor
  · exact (claim_C5 (some 100) (some 9900) 10000).1 100 9900 rfl rfl
      (by decide) (by decide) (by decide)
  · refine (claim_C5 (some 5) (some 200) 100).2 ?_
    rintro ⟨a, b, ha, hb, h1, h2, h3⟩
    cases ha
    cases hb
    omega

theorem set_self_of_getElem {α : Type} (l : List α) (n : Nat) (a : α)
    (h : l[n]? = some a) : l.set n a = l := by
  apply List.ext_getElem?
  intro m
  by_cases hm : n = m
  · subst hm
    rw [List.getElem?_set_self']
    rw [h]
    rfl
  · rw [List.getElem?_set_ne hm]

/-- `fixLinks` changes only `sampleLink`: any observation insensitive to
    `sampleLink` is preserved. -/
theorem fixLinks_map {α : Type} (f : SampleRec → α)
    (hf : ∀ s v, f { s with sampleLink := v } = f s) (l : List SampleRec) :
    (fixLinks l).map f = l.map f := by
  have hstep : ∀ (cur : List SampleRec) (i : Nat),
      (fixStep cur i).map f = cur.map f := by
    intro cur i
    unfold fixStep
    cases h1 : cur[i]? with
    | none => rfl
    | some s1 =>
        cases h2 : cur[i + 1]? with
        | none => rfl
        | some s2 =>
            show List.map f
              (if s1.channels = 2 ∧ s2.channels = 2 ∧
                  jsEndsWith s1.name "_L" = true ∧ jsEndsWith s2.name "_R" = true ∧
                  jsSliceDropRight s1.name 2 = jsSliceDropRight s2.name 2 then
                (cur.set i { s1 with sampleLink := i + 1 }).set (i + 1)
                  { s2 with sampleLink := i }
              else cur) = List.map f cur
            split
            · simp only [List.map_set, hf]
              have e1 : (cur.map f).set i (f s1) = cur.map f := by
                apply set_self_of_getElem
                rw [List.getElem?_map, h1]
                rfl
              rw [e1]
              apply set_self_of_getElem
              rw [List.getElem?_map, h2]
              rfl
            · rfl
  unfold fixLinks
  generalize List.range (l.length - 1) = idxs
  induction idxs generalizing l with
  | nil => rfl
  | cons i idxs ih =>
      rw [List.foldl_cons]
      rw [ih (fixStep l i), hstep l i]

theorem prepareLoop_pitch (d : Bool) (hd : d = true) (idx : Nat)
    (samples : List UserSample) :
    ∀ p ∈ (prepareLoop d idx samples).map (·.originalPitch), p = some 255 := by
  induction samples generalizing idx with
  | nil => simp [prepareLoop]
  | cons u rest ih =>
      intro p hp
      simp only [prepareLoop, List.map_append, List.mem_append] at hp
      rcases hp with hp | hp
      · subst hd
        unfold prepareOne at hp
        by_cases hch : u.channels = some 2
        · rw [if_pos hch] at hp
          simp at hp
          exact hp
        · rw [if_neg hch] at hp
          simp at hp
          exact hp
      · exact ih (idx + 1) p hp

/-- **C7.**  Drum-kit mode with samples named "kick" and "snare" and no
    explicit root notes: resolved root notes 36 and 38, each producing
    one zone with `keyLo = keyHi =` its root note; and `originalPitch`
    is 255 on every record of any drum-kit input's pool, regardless of
    the resolved root note. -/
theorem claim_C7 (d : Sf2Data) (hdrum : d.isDrumKit = true)
    (hne : d.samples ≠ []) :
    ((prepareSamples drumKitData).map
        (fun s => (s.name, s.rootNote, s.originalPitch))
      = [("kick", 36, some 255), ("snare", 38, some 255)])
    ∧ (buildDrumKitZones (prepareSamples drumKitData)).map
        (fun z => (z.keyLo, z.keyHi, z.sampleID))
      = [(36, 36, 0), (38, 38, 1)]
    ∧ (∀ s ∈ prepareSamples d, s.originalPitch = some 255) := by
  refine ⟨by decide, by decide, ?_⟩
  intro s hs
  have hmap : (prepareSamples d).map (·.originalPitch)
      = (prepareLoop d.isDrumKit 0 d.samples).map (·.originalPitch) := by
    unfold prepareSamples
    rw [if_neg hne]
    exact fixLinks_map (fun s => s.originalPitch) (fun s v => rfl) _
  have : s.originalPitch ∈ (prepareSamples d).map (·.originalPitch) :=
    List.mem_map_of_mem _ hs
  rw [hmap] at this
  exact prepareLoop_pitch d.isDrumKit hdrum 0 d.samples _ this

/-- Witness for C7 at the kick/snare drum kit. -/
theorem claim_C7_witness :
    drumKitData.isDrumKit = true ∧ drumKitData.samples ≠ []
    ∧ ∀ s ∈ prepareSamples drumKitData, s.originalPitch = some 255 :=
  ⟨rfl, by decide, (claim_C7 drumKitData rfl (by decide)).2.2⟩

/-- **C8 (counterexample).**  The claim as stated is false: the
    placeholder record of the empty input carries
    `loopStart = 0, loopEnd = 1` (a 1-frame region at the head of the
    payload), not `loopStart = 3, loopEnd = 4`. -/
theorem claim_C8_counterexample :
    (prepareSamples emptyData).map (fun s => (s.loopStart, s.loopEnd)) = [(0, 1)]
    ∧ (prepareSamples emptyData).map (fun s => (s.loopStart, s.loopEnd))
        ≠ [(3, 4)] := by
  constructor
  · decide
  · decide

/-- **C8 (amended).**  For the input with no samples, the normalizer
    emits exactly one mono record named "Empty" with exactly 4
    zero-valued frames, sample rate 44100, root note 60, no looping
    (`sampleMode = 0`), and a 1-frame loop region at the *head* of the
    payload (`loopStart = 0`, `loopEnd = 1`); the encoder still returns
    a structurally valid output larger than 44 bytes, starting with the
    `RIFF` tag and `sfbk` form type. -/
theorem claim_C8 :
    prepareSamples emptyData
      = [{ name := "Empty", pcm16 := [0, 0, 0, 0], sampleRate := 44100,
           rootNote := 60, originalPitch := none, exclusiveClass := none,
           loopStart := 0, loopEnd := 1, sampleMode := 0, sampleLink := 0,
           sampleType := 1, channels := 1 }]
    ∧ 44 < (createSf2File emptyData).length
    ∧ (createSf2File emptyData).take 4 = [82, 73, 70, 70]
    ∧ ((createSf2File emptyData).drop 8).take 4 = [115, 102, 98, 107] := by
  refine ⟨by decide, ?_, ?_, ?_⟩
  · rw [createSf2File_eq]
    decide
  · rw [createSf2File_eq]
    decide
  · rw [createSf2File_eq]
    decide

/-- **C9 (counterexample).**  The claim as stated is false: for an
    input with no author, the INFO list still contains an `IENG`
    record (bytes 60–63 spell "IENG" and the following record payload
    spells "sf2create\0"). -/
theorem claim_C9_counterexample :
    emptyData.author = none
    ∧ ((infoB emptyData).drop 60).take 4 = [73, 69, 78, 71]
    ∧ ((infoB emptyData).drop 68).take 10
        = [115, 102, 50, 99, 114, 101, 97, 116, 101, 0] := by
  refine ⟨rfl, by decide, by decide⟩

/-- **C9 (amended).**  For every input, the `LIST INFO` payload the
    encoder writes consists of exactly: the version record (major 2,
    minor 1, bytes `[2,0,1,0]`), the engine-name record "EMU8000", the
    instrument-name record falling back to "Untitled SoundFont" when no
    name is given, and an `IENG` author record that is always present,
    holding the caller's author string or the fallback "sf2create" when
    none (or an empty string) is supplied. -/
theorem claim_C9 (d : Sf2Data) :
    Emits (infoPayload d)
      (ccB "INFO"
        ++ chunkB "ifil" (u16le 2 ++ u16le 1)
        ++ chunkB "isng" (zstrB "EMU8000")
        ++ chunkB "INAM" (zstrB (jsOrString d.name "Untitled SoundFont"))
        ++ chunkB "IENG" (zstrB (jsOrString d.author "sf2create"))) :=
  infoPayload_emits d

/-- Witness for C9: the INFO payload written from the empty state on
    the empty input. -/
theorem claim_C9_witness :
    infoPayload emptyData { buf := [], offset := 0 }
      = { buf := [] ++ infoB emptyData, offset := 0 + (infoB emptyData).length } :=
  claim_C9 emptyData { buf := [], offset := 0 } (show ([] : List Nat).length = 0 by decide)

/-- Distance of `note` to the root at index `j` of the roots list. -/
def rootDist (note : Int) (roots : List Int) (j : Nat) : Nat :=
  (note - roots.getD j 0).natAbs

theorem scanBest_go (note : Int) (R : List Int) (rs : List Int) :
    ∀ (k bestID : Nat) (dd : Nat),
    R.drop k = rs → k ≤ R.length → bestID < k →
    dd = rootDist note R bestID →
    (∀ j, j < k → dd ≤ rootDist note R j) →
    (∀ j, j < bestID → dd < rootDist note R j) →
    (scanBest note rs k bestID (some dd) < R.length
     ∧ (∀ j, j < R.length →
         rootDist note R (scanBest note rs k bestID (some dd))
           ≤ rootDist note R j)
     ∧ (∀ j, j < scanBest note rs k bestID (some dd) →
         rootDist note R (scanBest note rs k bestID (some dd))
           < rootDist note R j)) := by
  induction rs with
  | nil =>
      intro k bestID dd hdrop hk hb1 hb2 hb3 hb4
      have hkl : R.length ≤ k := by
        by_contra hlt
        have : R.drop k ≠ [] := by
          apply List.ne_nil_of_length_pos
          rw [List.length_drop]
          omega
        exact this hdrop
      have hkeq : k = R.length := by omega
      subst hkeq
      refine ⟨by simpa [scanBest] using hb1, ?_, ?_⟩
      · intro j hj
        simpa [scanBest, hb2] using hb3 j hj
      · intro j hj
        simp only [scanBest] at hj ⊢
        simpa [hb2] using hb4 j hj
  | cons r rs ih =>
      intro k bestID dd hdrop hk hb1 hb2 hb3 hb4
      have hklt : k < R.length := by
        by_contra hge
        have : R.drop k = [] := List.drop_eq_nil_of_le (by omega)
        rw [hdrop] at this
        exact List.cons_ne_nil _ _ this
      have hget : R.getD k 0 = r := by
        have h0 : (R.drop k).getD 0 0 = r := by rw [hdrop]; rfl
        rw [List.getD_eq_getElem?_getD] at h0 ⊢
        rw [← h0, List.getElem?_drop]
        norm_num
      have hdrop2 : R.drop (k + 1) = rs := by
        have : R.drop (k + 1) = (R.drop k).drop 1 := by
          rw [List.drop_drop]
        rw [this, hdrop]
        rfl
      have hsb : scanBest note (r :: rs) k bestID (some dd)
          = if ltOpt (note - r).natAbs (some dd) = true then
              scanBest note rs (k + 1) k (some (note - r).natAbs)
            else scanBest note rs (k + 1) bestID (some dd) := rfl
      rw [hsb]
      by_cases hlt : (note - r).natAbs < dd
      · have hcond : ltOpt (note - r).natAbs (some dd) = true := by
          simp [ltOpt, hlt]
        rw [if_pos hcond]
        have hdk : (note - r).natAbs = rootDist note R k := by
          rw [rootDist, hget]
        refine ih (k + 1) k ((note - r).natAbs) hdrop2 (by omega) (by omega) hdk ?_ ?_
        · intro j hj
          by_cases hjk : j < k
          · have := hb3 j hjk
            omega
          · have : j = k := by omega
            subst this
            rw [← hdk]
        · intro j hj
          have := hb3 j hj
          omega
      · have hcond : ¬ ltOpt (note - r).natAbs (some dd) = true := by
          simp [ltOpt, hlt]
        rw [if_neg hcond]
        refine ih (k + 1) bestID dd hdrop2 (by omega) (by omega) hb2 ?_ hb4
        intro j hj
        by_cases hjk : j < k
        · exact hb3 j hjk
        · have : j = k := by omega
          subst this
          rw [rootDist, hget]
          omega

theorem scanBest_spec (note : Int) (R : List Int) (hne : R ≠ []) :
    scanBest note R 0 0 none < R.length
    ∧ (∀ j, j < R.length →
        rootDist note R (scanBest note R 0 0 none) ≤ rootDist note R j)
    ∧ (∀ j, j < scanBest note R 0 0 none →
        rootDist note R (scanBest note R 0 0 none) < rootDist note R j) := by
  match R, hne with
  | r :: rs, _ =>
      have hd : (r :: rs).getD 0 0 = r := rfl
      have h := scanBest_go note (r :: rs) rs 1 0 ((note - r).natAbs)
        (by rfl) (by simp) (by omega)
        (by rw [rootDist, hd]) (by intro j hj; interval_cases j; rw [rootDist, hd])
        (by intro j hj; omega)
      have hsb : scanBest note (r :: rs) 0 0 none
          = if ltOpt (note - r).natAbs none = true then
              scanBest note rs 1 0 (some (note - r).natAbs)
            else scanBest note rs 1 0 none := rfl
      rw [hsb, if_pos (by simp [ltOpt])]
      exact h

theorem buildNoteToSampleIndex_getD (pool : List SampleRec) (note : Nat)
    (h : note < 128) :
    (buildNoteToSampleIndex pool).getD note 0
      = scanBest (note : Int) (pool.map (·.rootNote)) 0 0 none := by
  unfold buildNoteToSampleIndex
  rw [List.getD_eq_getElem?_getD, List.getElem?_map, List.getElem?_range h]
  rfl

theorem rootDist_eq (note : Int) (pool : List SampleRec) (j : Nat)
    (hj : j < pool.length) :
    rootDist note (pool.map (·.rootNote)) j
      = (note - (sampleAt pool j).rootNote).natAbs := by
  rw [rootDist, sampleAt]
  congr 1
  rw [List.getD_eq_getElem?_getD, List.getD_eq_getElem?_getD, List.getElem?_map]
  rw [List.getElem?_eq_getElem hj]
  rfl

/-- **C6.**  The note-to-sample map assigns each MIDI note 0–127 the
    index of a record at minimal absolute distance from its root note,
    and a later record replaces the current best only at strictly
    smaller distance (every index below the chosen one is strictly
    farther); for two mono samples with roots 40 and 70, notes 0–55 map
    to the first sample, 56–127 to the second, and exactly two
    contiguous zones result. -/
theorem claim_C6 (pool : List SampleRec) (hne : pool ≠ []) :
    (∀ note : Nat, note < 128 →
      (buildNoteToSampleIndex pool).getD note 0 < pool.length
      ∧ (∀ j, j < pool.length →
          ((note : Int) - (sampleAt pool
              ((buildNoteToSampleIndex pool).getD note 0)).rootNote).natAbs
            ≤ ((note : Int) - (sampleAt pool j).rootNote).natAbs)
      ∧ (∀ j, j < (buildNoteToSampleIndex pool).getD note 0 →
          ((note : Int) - (sampleAt pool
              ((buildNoteToSampleIndex pool).getD note 0)).rootNote).natAbs
            < ((note : Int) - (sampleAt pool j).rootNote).natAbs))
    ∧ (buildNoteToSampleIndex (prepareSamples twoMonoData)).take 56
        = List.replicate 56 0
    ∧ (buildNoteToSampleIndex (prepareSamples twoMonoData)).drop 56
        = List.replicate 72 1
    ∧ (buildInstrumentZones (prepareSamples twoMonoData)
        (buildNoteToSampleIndex (prepareSamples twoMonoData))).map
        (fun z => (z.keyLo, z.keyHi, z.sampleID))
      = [((0 : Int), (55 : Int), 0), (56, 127, 1)] := by
  refine ⟨?_, by decide, by decide, by decide⟩
  intro note hnote
  have hrne : pool.map (·.rootNote) ≠ [] := by
    intro hcontra
    exact hne (List.map_eq_nil.mp hcontra)
  have hs := scanBest_spec (note : Int) (pool.map (·.rootNote)) hrne
  rw [List.length_map] at hs
  rw [buildNoteToSampleIndex_getD pool note hnote]
  obtain ⟨h1, h2, h3⟩ := hs
  refine ⟨h1, ?_, ?_⟩
  · intro j hj
    have := h2 j hj
    rw [rootDist_eq _ _ _ h1, rootDist_eq _ _ _ hj] at this
    exact this
  · intro j hj
    have := h3 j hj
    rw [rootDist_eq _ _ _ h1, rootDist_eq _ _ _ (by omega)] at this
    exact this

/-- Witness for C6 at the two-sample pool with roots 40 and 70. -/
theorem claim_C6_witness :
    (buildNoteToSampleIndex (prepareSamples twoMonoData)).getD 60 0
        < (prepareSamples twoMonoData).length
    ∧ (buildNoteToSampleIndex (prepareSamples twoMonoData)).take 56
        = List.replicate 56 0 :=
  ⟨((claim_C6 (prepareSamples twoMonoData) (by decide)).1 60 (by decide)).1,
   (claim_C6 (prepareSamples twoMonoData) (by decide)).2.1⟩

theorem bagGenCount_eq_length (drum : Bool) (z : ZoneDef) :
    bagGenCount drum z = (igenZoneRecs drum z).length := by
  unfold bagGenCount igenZoneRecs
  by_cases h1 : z.sampleMode = 1 <;>
    by_cases h2 : z.pan ≠ 0 <;>
      by_cases h3 : drum = true ∧ exPos z.exclusiveClass = true <;>
        simp [h1, h2, h3]

theorem ibagNdxsAux_getD (drum : Bool) (zones : List ZoneDef) :
    ∀ (g i : Nat), i ≤ zones.length →
      (ibagNdxsAux drum g zones).getD i 0
        = g + ((zones.take i).map (bagGenCount drum)).sum := by
  induction zones with
  | nil =>
      intro g i hi
      have h0 : i = 0 := by simpa using hi
      subst h0
      simp [ibagNdxsAux]
  | cons z zs ih =>
      intro g i hi
      match i with
      | 0 => simp [ibagNdxsAux]
      | i + 1 =>
          show (ibagNdxsAux drum (g + bagGenCount drum z) zs).getD i 0 = _
          rw [ih (g + bagGenCount drum z) i (by simpa using hi)]
          simp [List.take_succ_cons]
          omega

theorem igenGlobals_length (drum : Bool) :
    (igenGlobals drum).length = if drum then 2 else 0 := by
  cases drum <;> simp [igenGlobals]

/-- **C2.**  The `ibag` chunk's generator indices match the `igen`
    chunk exactly: both payloads serialize `ibagNdxs` / the generator
    records; bag 0 has index 0; the bag of zone `i` has index equal to
    the number of generators emitted before that zone's own (the global
    generators plus those of all earlier zones — 2 per zone plus the
    optional loop, pan and exclusive-class generators); the terminal
    bag's index is the total generator count; and each zone's
    sample-reference generator (operator 53) is emitted last. -/
theorem claim_C2 (drum : Bool) (zones : List ZoneDef) :
    Emits (ibagPayload drum zones) (ibagB drum zones)
    ∧ Emits (igenPayload drum zones) (igenB drum zones)
    ∧ (ibagNdxs drum zones).getD 0 0 = 0
    ∧ (∀ i, i < zones.length →
        (ibagNdxs drum zones).getD (i + 1) 0
          = (igenGlobals drum
              ++ (zones.take i).flatMap (igenZoneRecs drum)).length)
    ∧ (ibagNdxs drum zones).getD (zones.length + 1) 0
        = (igenGlobals drum ++ zones.flatMap (igenZoneRecs drum)).length
    ∧ (∀ z ∈ zones,
        (igenZoneRecs drum z).getLast? = some (53, (z.sampleID : Int))) := by
  refine ⟨ibagPayload_emits drum zones, igenPayload_emits drum zones, rfl, ?_, ?_, ?_⟩
  · intro i hi
    show (ibagNdxsAux drum (if drum then 2 else 0) zones).getD i 0 = _
    rw [ibagNdxsAux_getD drum zones _ i (by omega)]
    rw [List.length_append, List.length_flatMap, igenGlobals_length]
    congr 1
    apply congrArg
    apply List.map_congr_left
    intro z _
    exact bagGenCount_eq_length drum z
  · show (ibagNdxsAux drum (if drum then 2 else 0) zones).getD zones.length 0 = _
    rw [ibagNdxsAux_getD drum zones _ zones.length (by omega)]
    rw [List.length_append, List.length_flatMap, igenGlobals_length]
    rw [List.take_length]
    congr 1
    apply congrArg
    apply List.map_congr_left
    intro z _
    exact bagGenCount_eq_length drum z
  · intro z _
    show ((([((43 : Int), jsKeyRange z.keyHi z.keyLo)]
        ++ (if z.sampleMode = 1 then [((54 : Int), (1 : Int))] else [])
        ++ (if z.pan ≠ 0 then [((17 : Int), z.pan)] else [])
        ++ (if drum ∧ exPos z.exclusiveClass then
              [((57 : Int), z.exclusiveClass.getD 0)] else []))
        ++ [((53 : Int), (z.sampleID : Int))]).getLast?) = _
    rw [List.getLast?_concat]

/-- Witness for C2 on the two-zone melodic instrument. -/
theorem claim_C2_witness :
    ibagPayload false (zoneDefsOf twoMonoData) { buf := [], offset := 0 }
      = { buf := [] ++ ibagB false (zoneDefsOf twoMonoData),
          offset := 0 + (ibagB false (zoneDefsOf twoMonoData)).length }
    ∧ (ibagNdxs false (zoneDefsOf twoMonoData)).getD 1 0
      = (igenGlobals false
          ++ ((zoneDefsOf twoMonoData).take 0).flatMap (igenZoneRecs false)).length
    ∧ (ibagNdxs false (zoneDefsOf twoMonoData)).getD
        ((zoneDefsOf twoMonoData).length + 1) 0
      = (igenGlobals false
          ++ (zoneDefsOf twoMonoData).flatMap (igenZoneRecs false)).length :=
  ⟨(claim_C2 false (zoneDefsOf twoMonoData)).1 { buf := [], offset := 0 }
      (show ([] : List Nat).length = 0 by decide),
   (claim_C2 false (zoneDefsOf twoMonoData)).2.2.2.1 0 (by decide),
   (claim_C2 false (zoneDefsOf twoMonoData)).2.2.2.2.1⟩

theorem u16le_length (v : Int) : (u16le v).length = 2 := by
  simp [u16le]

theorem fixedAsciiB_length (s : String) (len : Nat) :
    (fixedAsciiB s len).length = len := by
  unfold fixedAsciiB
  simp only [List.length_append, List.length_map, List.length_replicate]
  have : ((utf8Bytes (jsSlice0 s len)).take len).length ≤ len :=
    by simpa using List.length_take_le len _
  omega

theorem shdrRecB_length (s : SampleRec) (sp : Nat) :
    (shdrRecB s sp).length = 46 := by
  unfold shdrRecB
  simp [fixedAsciiB_length, u32le_length, u16le_length]

theorem shdrStartPos_cons (s : SampleRec) (rest : List SampleRec) (i : Nat) :
    shdrStartPos (s :: rest) (i + 1)
      = s.pcm16.length + 46 + shdrStartPos rest i := by
  unfold shdrStartPos
  simp [List.take_succ_cons]

theorem shdrLoopB_decompose (pool : List SampleRec) :
    ∀ (sp i : Nat) (hi : i < pool.length),
    ∃ pre suf, shdrLoopB sp pool
        = pre ++ shdrRecB (pool.get ⟨i, hi⟩) (sp + shdrStartPos pool i) ++ suf
      ∧ pre.length = 46 * i := by
  induction pool with
  | nil =>
      intro sp i hi
      simp at hi
  | cons s rest ih =>
      intro sp i hi
      match i with
      | 0 =>
          refine ⟨[], shdrLoopB (sp + s.pcm16.length + 46) rest, ?_, by simp⟩
          show shdrRecB s sp ++ shdrLoopB (sp + s.pcm16.length + 46) rest = _
          simp [shdrStartPos]
      | i + 1 =>
          obtain ⟨pre, suf, heq, hlen⟩ :=
            ih (sp + s.pcm16.length + 46) i (by simpa using hi)
          refine ⟨shdrRecB s sp ++ pre, suf, ?_, ?_⟩
          · show shdrRecB s sp ++ shdrLoopB (sp + s.pcm16.length + 46) rest = _
            rw [heq]
            rw [shdrStartPos_cons]
            have : sp + s.pcm16.length + 46 + shdrStartPos rest i
                = sp + (s.pcm16.length + 46 + shdrStartPos rest i) := by omega
            rw [← this]
            simp [List.append_assoc]
          · simp [hlen, shdrRecB_length]
            omega

/-- **C4.**  The `shdr` chunk serializes one 46-byte record per pooled
    sample; record `i` (at byte offset `46 * i`) carries the absolute
    fields `S`, `S + frameCount`, `S + loopStart`, `S + loopEnd` where
    `S = shdrStartPos pool i` accumulates `frameCount + 46` over all
    preceding records (see `shdrRecB` for the field layout). -/
theorem claim_C4 (pool : List SampleRec) (i : Nat) (hi : i < pool.length) :
    Emits (shdrPayload pool) (shdrLoopB 0 pool ++ shdrEosB)
    ∧ (shdrRecB (pool.get ⟨i, hi⟩) (shdrStartPos pool i)
        = fixedAsciiB (pool.get ⟨i, hi⟩).name 20
          ++ u32le ((shdrStartPos pool i : Nat) : Int)
          ++ u32le ((shdrStartPos pool i : Int) + (pool.get ⟨i, hi⟩).pcm16.length)
          ++ u32le ((shdrStartPos pool i : Int) + (pool.get ⟨i, hi⟩).loopStart)
          ++ u32le ((shdrStartPos pool i : Int) + (pool.get ⟨i, hi⟩).loopEnd)
          ++ u32le ((pool.get ⟨i, hi⟩).sampleRate : Int)
          ++ [toByte ((pool.get ⟨i, hi⟩).originalPitch.getD 0)] ++ [0]
          ++ u16le ((pool.get ⟨i, hi⟩).sampleLink : Int)
          ++ u16le ((pool.get ⟨i, hi⟩).sampleType : Int))
    ∧ ∃ pre suf, shdrLoopB 0 pool
        = pre ++ shdrRecB (pool.get ⟨i, hi⟩) (shdrStartPos pool i) ++ suf
      ∧ pre.length = 46 * i := by
  refine ⟨shdrPayload_emits pool, rfl, ?_⟩
  obtain ⟨pre, suf, heq, hlen⟩ := shdrLoopB_decompose pool 0 i hi
  have h0 : (0 : Nat) + shdrStartPos pool i = shdrStartPos pool i := by omega
  rw [h0] at heq
  exact ⟨pre, suf, heq, hlen⟩

/-- Witness for C4: record 1 of the two-sample pool sits at byte 46
    with its accumulated start position. -/
theorem claim_C4_witness :
    shdrPayload (prepareSamples twoMonoData) { buf := [], offset := 0 }
      = { buf := [] ++ (shdrLoopB 0 (prepareSamples twoMonoData) ++ shdrEosB),
          offset := 0 + (shdrLoopB 0 (prepareSamples twoMonoData) ++ shdrEosB).length }
    ∧ ∃ pre suf, shdrLoopB 0 (prepareSamples twoMonoData)
        = pre ++ shdrRecB ((prepareSamples twoMonoData).get
            ⟨1, (by decide : 1 < (prepareSamples twoMonoData).length)⟩)
            (shdrStartPos (prepareSamples twoMonoData) 1) ++ suf
      ∧ pre.length = 46 * 1 :=
  ⟨(claim_C4 (prepareSamples twoMonoData) 1 (by decide)).1
      { buf := [], offset := 0 } (show ([] : List Nat).length = 0 by decide),
   (claim_C4 (prepareSamples twoMonoData) 1 (by decide)).2.2⟩

theorem bizStep_eq (pool : List SampleRec) (m : List Nat) (n : Nat)
    (hn : 1 ≤ n) (a c : Nat) (racc : List (Nat × Nat × Nat)) :
    bizStep pool m
      (a, c, racc.flatMap
        (fun r => pushZonesForRange pool (r.1 : Int) (r.2.1 : Int) r.2.2)) n
      = ((runsStep m (a, c, racc) n).1, (runsStep m (a, c, racc) n).2.1,
        (runsStep m (a, c, racc) n).2.2.flatMap
          (fun r => pushZonesForRange pool (r.1 : Int) (r.2.1 : Int) r.2.2)) := by
  unfold bizStep runsStep
  by_cases h : m.getD n 0 ≠ c
  · simp only [if_pos h]
    simp only [List.flatMap_append, List.flatMap_cons, List.flatMap_nil,
      List.append_nil]
    have hc : ((n - 1 : Nat) : Int) = (n : Int) - 1 := by
      omega
    rw [hc]
  · simp only [if_neg h]

theorem biz_fold_eq (pool : List SampleRec) (m : List Nat) (ns : List Nat)
    (hns : ∀ n ∈ ns, 1 ≤ n) :
    ∀ (a c : Nat) (racc : List (Nat × Nat × Nat)),
    ns.foldl (bizStep pool m)
      (a, c, racc.flatMap
        (fun r => pushZonesForRange pool (r.1 : Int) (r.2.1 : Int) r.2.2))
      = ((ns.foldl (runsStep m) (a, c, racc)).1,
         (ns.foldl (runsStep m) (a, c, racc)).2.1,
         (ns.foldl (runsStep m) (a, c, racc)).2.2.flatMap
           (fun r => pushZonesForRange pool (r.1 : Int) (r.2.1 : Int) r.2.2)) := by
  induction ns with
  | nil => intro a c racc; rfl
  | cons n ns ih =>
      intro a c racc
      rw [List.foldl_cons, List.foldl_cons]
      rw [bizStep_eq pool m n (hns n (by simp)) a c racc]
      have h := ih (fun x hx => hns x (by simp [hx]))
        (runsStep m (a, c, racc) n).1 (runsStep m (a, c, racc) n).2.1
        (runsStep m (a, c, racc) n).2.2
      rw [h]

/-- `buildInstrumentZones` is the flattening of `pushZonesForRange`
    over the key-range runs of the note map. -/
theorem biz_eq (pool : List SampleRec) (m : List Nat) :
    buildInstrumentZones pool m
      = (melodicRuns m).flatMap
          (fun r => pushZonesForRange pool (r.1 : Int) (r.2.1 : Int) r.2.2) := by
  unfold buildInstrumentZones melodicRuns
  have h := biz_fold_eq pool m (List.range' 1 127)
    (fun n hn => by
      have := List.mem_range'.mp hn
      omega)
    0 (m.getD 0 0) []
  simp only [List.flatMap_nil] at h
  simp only []
  rw [h]
  simp only [List.flatMap_append, List.flatMap_cons, List.flatMap_nil,
    List.append_nil]
  norm_num

theorem tiles_append (racc : List (Nat × Nat × Nat)) (a h c : Nat) :
    ∀ (lo : Nat), TilesTo racc lo a → a ≤ h →
      TilesTo (racc ++ [(a, h, c)]) lo (h + 1) := by
  induction racc with
  | nil =>
      intro lo hT hle
      have : lo = a := hT
      subst this
      exact ⟨rfl, hle, rfl⟩
  | cons r rest ih =>
      intro lo hT hle
      obtain ⟨h1, h2, h3⟩ := hT
      exact ⟨h1, h2, ih (r.2.1 + 1) h3 hle⟩

theorem runs_fold_inv (m : List Nat) :
    ∀ (count s : Nat), 1 ≤ s →
    ∀ (a c : Nat) (racc : List (Nat × Nat × Nat)),
    TilesTo racc 0 a → a < s →
    TilesTo ((List.range' s count).foldl (runsStep m) (a, c, racc)).2.2 0
        ((List.range' s count).foldl (runsStep m) (a, c, racc)).1
      ∧ ((List.range' s count).foldl (runsStep m) (a, c, racc)).1 < s + count := by
  intro count
  induction count with
  | zero =>
      intro s hs a c racc hT ha
      simpa using ⟨hT, by omega⟩
  | succ n ih =>
      intro s hs a c racc hT ha
      rw [List.range'_succ, List.foldl_cons]
      by_cases h : m.getD s 0 ≠ c
      · have hstep : runsStep m (a, c, racc) s
            = (s, m.getD s 0, racc ++ [(a, s - 1, c)]) := by
          unfold runsStep
          rw [if_pos h]
        rw [hstep]
        have hT2 : TilesTo (racc ++ [(a, s - 1, c)]) 0 (s - 1 + 1) :=
          tiles_append racc a (s - 1) c 0 hT (by omega)
        have hs1 : s - 1 + 1 = s := by omega
        rw [hs1] at hT2
        have := ih (s + 1) (by omega) s (m.getD s 0) (racc ++ [(a, s - 1, c)])
          hT2 (by omega)
        constructor
        · exact this.1
        · omega
      · have hstep : runsStep m (a, c, racc) s = (a, c, racc) := by
          unfold runsStep
          rw [if_neg h]
        rw [hstep]
        have := ih (s + 1) (by omega) a c racc hT (by omega)
        constructor
        · exact this.1
        · omega

/-- The melodic runs tile the notes 0–127 exactly. -/
theorem melodicRuns_tiles (m : List Nat) : TilesTo (melodicRuns m) 0 128 := by
  unfold melodicRuns
  simp only []
  have h := runs_fold_inv m 127 1 (by omega) 0 (m.getD 0 0) [] rfl (by omega)
  have h127 : (List.foldl (runsStep m) (0, m.getD 0 0, []) (List.range' 1 127)).1
      ≤ 127 := by omega
  exact tiles_append _ _ 127 _ 0 h.1 h127

theorem tiles_mem (rs : List (Nat × Nat × Nat)) :
    ∀ (lo stop : Nat), TilesTo rs lo stop →
      ∀ r ∈ rs, lo ≤ r.1 ∧ r.1 ≤ r.2.1 ∧ r.2.1 < stop := by
  induction rs with
  | nil => intro lo stop _ r hr; simp at hr
  | cons a rest ih =>
      intro lo stop hT r hr
      obtain ⟨h1, h2, h3⟩ := hT
      rw [List.mem_cons] at hr
      rcases hr with hr | hr
      · subst hr
        have hstop : r.2.1 < stop := by
          match rest, h3 with
          | [], h3 =>
              have : r.2.1 + 1 = stop := h3
              omega
          | x :: xs, h3 =>
              have h4 := (ih (r.2.1 + 1) stop h3 x (by simp)).1
              have h5 := (ih (r.2.1 + 1) stop h3 x (by simp)).2.1
              have h6 := (ih (r.2.1 + 1) stop h3 x (by simp)).2.2
              omega
        omega
      · have := ih (a.2.1 + 1) stop h3 r hr
        omega

theorem tiles_exists (rs : List (Nat × Nat × Nat)) :
    ∀ (lo stop note : Nat), TilesTo rs lo stop → lo ≤ note → note < stop →
      ∃ r ∈ rs, r.1 ≤ note ∧ note ≤ r.2.1 := by
  induction rs with
  | nil =>
      intro lo stop note hT h1 h2
      have : lo = stop := hT
      omega
  | cons a rest ih =>
      intro lo stop note hT h1 h2
      obtain ⟨ha1, ha2, ha3⟩ := hT
      by_cases hn : note ≤ a.2.1
      · exact ⟨a, by simp, by omega, hn⟩
      · obtain ⟨r, hr, hr1, hr2⟩ := ih (a.2.1 + 1) stop note ha3 (by omega) h2
        exact ⟨r, List.mem_cons_of_mem a hr, hr1, hr2⟩

theorem tiles_unique (rs : List (Nat × Nat × Nat)) :
    ∀ (lo stop note : Nat), TilesTo rs lo stop →
      ∀ r1 ∈ rs, ∀ r2 ∈ rs,
        r1.1 ≤ note → note ≤ r1.2.1 → r2.1 ≤ note → note ≤ r2.2.1 → r1 = r2 := by
  induction rs with
  | nil => intro lo stop note _ r1 hr1; simp at hr1
  | cons a rest ih =>
      intro lo stop note hT r1 hr1 r2 hr2 h11 h12 h21 h22
      obtain ⟨ha1, ha2, ha3⟩ := hT
      rw [List.mem_cons] at hr1 hr2
      rcases hr1 with hr1 | hr1 <;> rcases hr2 with hr2 | hr2
      · rw [hr1, hr2]
      · subst hr1
        have := (tiles_mem rest (r1.2.1 + 1) stop ha3 r2 hr2).1
        omega
      · subst hr2
        have := (tiles_mem rest (r2.2.1 + 1) stop ha3 r1 hr1).1
        omega
      · exact ih (a.2.1 + 1) stop note ha3 r1 hr1 r2 hr2 h11 h12 h21 h22

theorem tiles_countP_zero (rs : List (Nat × Nat × Nat)) :
    ∀ (lo stop note : Nat), TilesTo rs lo stop → note < lo →
      rs.countP (fun r => rangeHas (note : Int) ((r.1 : Int), (r.2.1 : Int))) = 0 := by
  induction rs with
  | nil => intro lo stop note _ _; rfl
  | cons a rest ih =>
      intro lo stop note hT hnote
      obtain ⟨ha1, ha2, ha3⟩ := hT
      rw [List.countP_cons]
      have hfalse : rangeHas (note : Int) ((a.1 : Int), (a.2.1 : Int)) = false := by
        simp [rangeHas]
        intro hle
        have : a.1 ≤ note := by exact_mod_cast hle
        omega
      rw [hfalse]
      simp [ih (a.2.1 + 1) stop note ha3 (by omega)]

theorem tiles_countP_one (rs : List (Nat × Nat × Nat)) :
    ∀ (lo stop note : Nat), TilesTo rs lo stop → lo ≤ note → note < stop →
      rs.countP (fun r => rangeHas (note : Int) ((r.1 : Int), (r.2.1 : Int))) = 1 := by
  induction rs with
  | nil =>
      intro lo stop note hT h1 h2
      have : lo = stop := hT
      omega
  | cons a rest ih =>
      intro lo stop note hT h1 h2
      obtain ⟨ha1, ha2, ha3⟩ := hT
      rw [List.countP_cons]
      by_cases hn : note ≤ a.2.1
      · have htrue : rangeHas (note : Int) ((a.1 : Int), (a.2.1 : Int)) = true := by
          simp [rangeHas]
          constructor
          · exact_mod_cast Nat.le_trans (by omega) (Nat.le_refl note)
          · exact_mod_cast hn
        rw [tiles_countP_zero rest (a.2.1 + 1) stop note ha3 (by omega)]
        simp [htrue]
      · have hfalse : rangeHas (note : Int) ((a.1 : Int), (a.2.1 : Int)) = false := by
          simp [rangeHas]
          intro _
          have : ¬ ((note : Int) ≤ (a.2.1 : Int)) := by exact_mod_cast hn
          omega
        simp [hfalse, ih (a.2.1 + 1) stop note ha3 (by omega) h2]

theorem push_fields (pool : List SampleRec) (lo hi : Int) (sid : Nat) :
    ∀ z ∈ pushZonesForRange pool lo hi sid, z.keyLo = lo ∧ z.keyHi = hi := by
  intro z hz
  unfold pushZonesForRange at hz
  simp only [] at hz
  split at hz
  · rw [List.mem_cons, List.mem_cons] at hz
    rcases hz with hz | hz | hz
    · rw [hz]; exact ⟨rfl, rfl⟩
    · rw [hz]; exact ⟨rfl, rfl⟩
    · simp at hz
  · rw [List.mem_cons] at hz
    rcases hz with hz | hz
    · rw [hz]; exact ⟨rfl, rfl⟩
    · simp at hz

theorem push_ne_nil (pool : List SampleRec) (lo hi : Int) (sid : Nat) :
    pushZonesForRange pool lo hi sid ≠ [] := by
  unfold pushZonesForRange
  simp only []
  split <;> simp

theorem push_mono (pool : List SampleRec) (lo hi : Int) (sid : Nat)
    (h : ¬((sampleAt pool sid).sampleType = 4 ∧ (sampleAt pool sid).sampleLink ≠ 0)) :
    pushZonesForRange pool lo hi sid
      = [{ keyLo := lo, keyHi := hi, sampleID := sid,
           sampleMode := (sampleAt pool sid).sampleMode,
           pan := if (sampleAt pool sid).sampleType = 4 then -500
             else if (sampleAt pool sid).sampleType = 2 then 500 else 0 }] := by
  unfold pushZonesForRange
  simp only []
  rw [if_neg h]

theorem flatMap_eq_map_of {α β : Type} (l : List α) (f : α → List β) (g : α → β)
    (h : ∀ a ∈ l, f a = [g a]) : l.flatMap f = l.map g := by
  induction l with
  | nil => rfl
  | cons a t ih =>
      rw [List.flatMap_cons, List.map_cons, h a (by simp),
        ih (fun x hx => h x (by simp [hx]))]
      rfl

/-- C3 (corrected).  In melodic (non-drum-kit) mode the zones' key ranges
    tile the MIDI notes 0–127 with no gaps: every note is covered by at
    least one zone, and all zones covering a note carry the identical key
    range (a stereo companion zone duplicates its main zone's range, so
    overlap is only ever exact duplication).  When no prepared sample is a
    linked stereo-left record, every note is covered by exactly one zone.
    The original claim's "every note is covered by exactly one zone" is
    refuted by `claim_C3_counterexample`: a stereo sample yields two zones
    over the same range. -/
theorem claim_C3 (d : Sf2Data) (hmel : d.isDrumKit = false) :
    (∀ note : Nat, note < 128 →
        ∃ z ∈ buildInstrumentZones (prepareSamples d)
            (buildNoteToSampleIndex (prepareSamples d)),
          rangeHas (note : Int) (z.keyLo, z.keyHi) = true)
    ∧ (∀ note : Nat, note < 128 →
        ∀ z1 ∈ buildInstrumentZones (prepareSamples d)
            (buildNoteToSampleIndex (prepareSamples d)),
        ∀ z2 ∈ buildInstrumentZones (prepareSamples d)
            (buildNoteToSampleIndex (prepareSamples d)),
          rangeHas (note : Int) (z1.keyLo, z1.keyHi) = true →
          rangeHas (note : Int) (z2.keyLo, z2.keyHi) = true →
          (z1.keyLo, z1.keyHi) = (z2.keyLo, z2.keyHi))
    ∧ ((∀ sid : Nat,
          ¬((sampleAt (prepareSamples d) sid).sampleType = 4
            ∧ (sampleAt (prepareSamples d) sid).sampleLink ≠ 0)) →
        ∀ note : Nat, note < 128 →
          (buildInstrumentZones (prepareSamples d)
              (buildNoteToSampleIndex (prepareSamples d))).countP
            (fun z => rangeHas (note : Int) (z.keyLo, z.keyHi)) = 1) := by
  have hbiz := biz_eq (prepareSamples d) (buildNoteToSampleIndex (prepareSamples d))
  have htiles := melodicRuns_tiles (buildNoteToSampleIndex (prepareSamples d))
  refine ⟨?_, ?_, ?_⟩
  · intro note hnote
    obtain ⟨r, hr, h1, h2⟩ :=
      tiles_exists (melodicRuns (buildNoteToSampleIndex (prepareSamples d)))
        0 128 note htiles (Nat.zero_le _) hnote
    cases hP : pushZonesForRange (prepareSamples d) (r.1 : Int) (r.2.1 : Int) r.2.2 with
    | nil => exact absurd hP (push_ne_nil _ _ _ _)
    | cons z zs =>
        refine ⟨z, ?_, ?_⟩
        · rw [hbiz]
          exact List.mem_flatMap.mpr ⟨r, hr, by rw [hP]; simp⟩
        · have hf := push_fields (prepareSamples d) (r.1 : Int) (r.2.1 : Int) r.2.2
            z (by rw [hP]; simp)
          rw [show (z.keyLo, z.keyHi) = ((r.1 : Int), (r.2.1 : Int)) by
            rw [hf.1, hf.2]]
          simp only [rangeHas, Bool.and_eq_true, decide_eq_true_eq]
          exact ⟨by exact_mod_cast h1, by exact_mod_cast h2⟩
  · intro note hnote z1 hz1 z2 hz2 hc1 hc2
    rw [hbiz] at hz1 hz2
    obtain ⟨r1, hr1, hm1⟩ := List.mem_flatMap.mp hz1
    obtain ⟨r2, hr2, hm2⟩ := List.mem_flatMap.mp hz2
    have hf1 := push_fields _ _ _ _ z1 hm1
    have hf2 := push_fields _ _ _ _ z2 hm2
    rw [hf1.1, hf1.2] at hc1
    rw [hf2.1, hf2.2] at hc2
    simp only [rangeHas, Bool.and_eq_true, decide_eq_true_eq] at hc1 hc2
    have e := tiles_unique (melodicRuns (buildNoteToSampleIndex (prepareSamples d)))
      0 128 note htiles r1 hr1 r2 hr2
      (by exact_mod_cast hc1.1) (by exact_mod_cast hc1.2)
      (by exact_mod_cast hc2.1) (by exact_mod_cast hc2.2)
    rw [hf1.1, hf1.2, hf2.1, hf2.2, e]
  · intro hmono note hnote
    rw [hbiz]
    rw [flatMap_eq_map_of _ _
      (fun r : Nat × Nat × Nat =>
        ({ keyLo := (r.1 : Int), keyHi := (r.2.1 : Int), sampleID := r.2.2,
           sampleMode := (sampleAt (prepareSamples d) r.2.2).sampleMode,
           pan := if (sampleAt (prepareSamples d) r.2.2).sampleType = 4 then -500
             else if (sampleAt (prepareSamples d) r.2.2).sampleType = 2 then 500
             else 0 } : ZoneDef))
      (fun r _ => push_mono (prepareSamples d) (r.1 : Int) (r.2.1 : Int) r.2.2
        (hmono r.2.2))]
    rw [List.countP_map]
    exact tiles_countP_one _ 0 128 note htiles (Nat.zero_le note) hnote

/-- Counterexample to C3 as stated: for a single stereo sample (melodic
    mode) note 0 is covered by TWO zones (the left-channel main zone and
    its duplicated-range right-channel companion), not exactly one. -/
theorem claim_C3_counterexample :
    stereoData.isDrumKit = false
    ∧ (buildInstrumentZones (prepareSamples stereoData)
          (buildNoteToSampleIndex (prepareSamples stereoData))).countP
        (fun z => rangeHas 0 (z.keyLo, z.keyHi)) = 2 := by
  decide

/-- Witness for `claim_C3` at the two-mono-sample input: the hypothesis is
    discharged concretely and the tiling conclusion instantiated. -/
theorem claim_C3_witness :
    twoMonoData.isDrumKit = false
    ∧ ((∀ note : Nat, note < 128 →
          ∃ z ∈ buildInstrumentZones (prepareSamples twoMonoData)
              (buildNoteToSampleIndex (prepareSamples twoMonoData)),
            rangeHas (note : Int) (z.keyLo, z.keyHi) = true)
      ∧ (∀ note : Nat, note < 128 →
          ∀ z1 ∈ buildInstrumentZones (prepareSamples twoMonoData)
              (buildNoteToSampleIndex (prepareSamples twoMonoData)),
          ∀ z2 ∈ buildInstrumentZones (prepareSamples twoMonoData)
              (buildNoteToSampleIndex (prepareSamples twoMonoData)),
            rangeHas (note : Int) (z1.keyLo, z1.keyHi) = true →
            rangeHas (note : Int) (z2.keyLo, z2.keyHi) = true →
            (z1.keyLo, z1.keyHi) = (z2.keyLo, z2.keyHi))
      ∧ ((∀ sid : Nat,
            ¬((sampleAt (prepareSamples twoMonoData) sid).sampleType = 4
              ∧ (sampleAt (prepareSamples twoMonoData) sid).sampleLink ≠ 0)) →
          ∀ note : Nat, note < 128 →
            (buildInstrumentZones (prepareSamples twoMonoData)
                (buildNoteToSampleIndex (prepareSamples twoMonoData))).countP
              (fun z => rangeHas (note : Int) (z.keyLo, z.keyHi)) = 1)) :=
  ⟨by decide, claim_C3 twoMonoData (by decide)⟩

theorem prepareOne_cases (b : Bool) (i : Nat) (u : UserSample) :
    (∃ s, prepareOne b i u = [s] ∧ s.sampleType = 1)
    ∨ (∃ sL sR, prepareOne b i u = [sL, sR] ∧ sL.sampleType = 4
        ∧ sR.sampleType = 2 ∧ sL.rootNote = sR.rootNote) := by
  unfold prepareOne
  simp only []
  split
  · right; exact ⟨_, _, rfl, rfl, rfl, rfl⟩
  · left; exact ⟨_, rfl, rfl⟩

theorem prepareLoop_chain (b : Bool) (us : List UserSample) : ∀ (i : Nat),
    List.Chain' stereoRel (prepareLoop b i us)
    ∧ ∀ s, (prepareLoop b i us).head? = some s → s.sampleType ≠ 2 := by
  induction us with
  | nil =>
      intro i
      exact ⟨List.chain'_nil, by intro s hs; simp [prepareLoop] at hs⟩
  | cons u rest ih =>
      intro i
      have hsplit : prepareLoop b i (u :: rest)
          = prepareOne b i u ++ prepareLoop b (i + 1) rest := rfl
      rcases prepareOne_cases b i u with ⟨s, he, ht⟩ | ⟨sL, sR, he, h4, h2, hroot⟩
      · constructor
        · rw [hsplit, he, List.chain'_append]
          refine ⟨List.chain'_singleton s, (ih (i + 1)).1, ?_⟩
          intro x hx y hy
          intro hy2
          exact absurd hy2 ((ih (i + 1)).2 y hy)
        · intro s' hs'
          rw [hsplit, he] at hs'
          simp at hs'
          rw [← hs', ht]
          decide
      · constructor
        · rw [hsplit, he, List.chain'_append]
          refine ⟨?_, (ih (i + 1)).1, ?_⟩
          · exact List.chain'_pair.mpr (fun _ => ⟨h4, hroot⟩)
          · intro x hx y hy
            intro hy2
            exact absurd hy2 ((ih (i + 1)).2 y hy)
        · intro s' hs'
          rw [hsplit, he] at hs'
          simp at hs'
          rw [← hs', h4]
          decide

theorem fixLinks_chain (l : List SampleRec)
    (h : List.Chain' stereoRel l) : List.Chain' stereoRel (fixLinks l) := by
  have hmap := fixLinks_map (fun s => (s.sampleType, s.rootNote))
    (fun s v => rfl) l
  have h2 : List.Chain' (fun p q : Nat × Int => q.1 = 2 → p.1 = 4 ∧ p.2 = q.2)
      (l.map (fun s => (s.sampleType, s.rootNote))) := by
    rw [List.chain'_map]
    exact h
  rw [← hmap] at h2
  exact (List.chain'_map (fun s : SampleRec => (s.sampleType, s.rootNote))).mp h2

theorem fixLinks_head (l : List SampleRec) (s : SampleRec)
    (hs : (fixLinks l).head? = some s) :
    ∃ t, l.head? = some t ∧ t.sampleType = s.sampleType := by
  have hmap := fixLinks_map (fun r => r.sampleType) (fun r v => rfl) l
  have heq : ((fixLinks l).map (fun r => r.sampleType)).head?
      = (l.map (fun r => r.sampleType)).head? := by rw [hmap]
  rw [List.head?_map, List.head?_map, hs] at heq
  cases ht : l.head? with
  | none => rw [ht] at heq; simp at heq
  | some t =>
      rw [ht] at heq
      simp at heq
      exact ⟨t, rfl, heq.symm⟩

theorem prepareSamples_chain (d : Sf2Data) :
    List.Chain' stereoRel (prepareSamples d)
    ∧ ∀ s, (prepareSamples d).head? = some s → s.sampleType ≠ 2 := by
  unfold prepareSamples
  by_cases h : d.samples = []
  · rw [if_pos h]
    refine ⟨List.chain'_singleton _, ?_⟩
    intro s hs
    simp at hs
    rw [← hs]
    decide
  · rw [if_neg h]
    refine ⟨fixLinks_chain _ (prepareLoop_chain d.isDrumKit d.samples 0).1, ?_⟩
    intro s hs
    obtain ⟨t, ht, hts⟩ := fixLinks_head _ s hs
    have := (prepareLoop_chain d.isDrumKit d.samples 0).2 t ht
    omega

theorem prepareSamples_ne_nil (d : Sf2Data) : prepareSamples d ≠ [] := by
  unfold prepareSamples
  by_cases h : d.samples = []
  · rw [if_pos h]; simp
  · rw [if_neg h]
    intro hnil
    have hlen : (fixLinks (prepareLoop d.isDrumKit 0 d.samples)).length
        = (prepareLoop d.isDrumKit 0 d.samples).length := by
      have h1 := congrArg List.length
        (fixLinks_map (fun _ => (0 : Nat)) (fun s v => rfl)
          (prepareLoop d.isDrumKit 0 d.samples))
      simpa using h1
    rw [hnil] at hlen
    cases hu : d.samples with
    | nil => exact h hu
    | cons u rest =>
        rw [hu] at hlen
        have hsplit : prepareLoop d.isDrumKit 0 (u :: rest)
            = prepareOne d.isDrumKit 0 u ++ prepareLoop d.isDrumKit 1 rest := rfl
        rcases prepareOne_cases d.isDrumKit 0 u with ⟨s, he, _⟩ | ⟨sL, sR, he, _, _, _⟩ <;>
          · rw [hsplit, he] at hlen
            simp at hlen

theorem sampleAt_get (pool : List SampleRec) (j : Nat) (hj : j < pool.length) :
    sampleAt pool j = pool.get ⟨j, hj⟩ := by
  rw [sampleAt, List.getD_eq_getElem?_getD, List.getElem?_eq_getElem hj]
  rfl

theorem pool_paired (pool : List SampleRec)
    (hchain : List.Chain' stereoRel pool)
    (hhead : ∀ s, pool.head? = some s → s.sampleType ≠ 2) :
    ∀ i, i < pool.length → (sampleAt pool i).sampleType = 2 →
      0 < i ∧ (sampleAt pool (i - 1)).sampleType = 4
      ∧ (sampleAt pool (i - 1)).rootNote = (sampleAt pool i).rootNote := by
  intro i hi h2
  have hipos : 0 < i := by
    by_contra h0
    have hi0 : i = 0 := by omega
    subst hi0
    have hh : pool.head? = some (pool.get ⟨0, hi⟩) := by
      cases pool with
      | nil => simp at hi
      | cons a t => rfl
    have := hhead _ hh
    rw [sampleAt_get pool 0 hi] at h2
    exact this h2
  have hc := List.chain'_iff_get.mp hchain (i - 1) (by omega)
  have hgg : pool.get ⟨i - 1 + 1, by omega⟩ = pool.get ⟨i, hi⟩ := by
    congr 1
    exact Fin.ext (show i - 1 + 1 = i by omega)
  rw [sampleAt_get pool i hi] at h2
  obtain ⟨h4, hroot⟩ := hc (by rw [hgg]; exact h2)
  refine ⟨hipos, ?_, ?_⟩
  · rw [sampleAt_get pool (i - 1) (by omega)]
    exact h4
  · rw [sampleAt_get pool (i - 1) (by omega), sampleAt_get pool i hi]
    rw [← hgg]
    exact hroot

theorem push_pan (pool : List SampleRec) (lo hi : Int) (sid : Nat) :
    ∀ z ∈ pushZonesForRange pool lo hi sid,
      (sampleAt pool z.sampleID).sampleType = 2 → z.pan = 500 := by
  intro z hz
  unfold pushZonesForRange at hz
  simp only [] at hz
  split at hz
  · rename_i hcond
    rw [List.mem_cons, List.mem_cons] at hz
    rcases hz with hz | hz | hz
    · intro h2
      rw [hz] at h2
      simp only [] at h2
      rw [hz]
      simp only []
      omega
    · intro _
      rw [hz]
    · simp at hz
  · rw [List.mem_cons] at hz
    rcases hz with hz | hz
    · intro h2
      rw [hz] at h2
      simp only [] at h2
      rw [hz]
      simp only []
      rw [if_neg (by omega), if_pos h2]
    · simp at hz

theorem noteMap_avoids_right (pool : List SampleRec)
    (hne : pool ≠ [])
    (hpar : ∀ i, i < pool.length → (sampleAt pool i).sampleType = 2 →
      0 < i ∧ (sampleAt pool (i - 1)).sampleType = 4
      ∧ (sampleAt pool (i - 1)).rootNote = (sampleAt pool i).rootNote)
    (note : Nat) (hnote : note < 128) :
    (sampleAt pool
        ((buildNoteToSampleIndex pool).getD note 0)).sampleType ≠ 2 := by
  intro h2
  rw [buildNoteToSampleIndex_getD pool note hnote] at h2
  have hRne : pool.map (fun s => s.rootNote) ≠ [] := by
    cases pool with
    | nil => exact absurd rfl hne
    | cons a t => simp
  obtain ⟨hlt, hmin, hstrict⟩ :=
    scanBest_spec (note : Int) (pool.map (fun s => s.rootNote)) hRne
  rw [List.length_map] at hlt
  have hp := hpar _ hlt h2
  have hs := hstrict
    (scanBest (note : Int) (pool.map (fun s => s.rootNote)) 0 0 none - 1)
    (by omega)
  rw [rootDist_eq (note : Int) pool _ hlt,
    rootDist_eq (note : Int) pool _ (by omega)] at hs
  rw [hp.2.2] at hs
  exact lt_irrefl _ hs

/-- **C10.**  In the prepared pool every right-channel record
    (sampleType 2) is immediately preceded by its left twin
    (sampleType 4) carrying the same root note; consequently the
    note-to-sample map (first index at minimal root distance) never
    selects a right-channel record for any of the 128 notes, and a
    right-channel sample appears in the melodic zone list only with
    pan = +500 (the appended companion zones). -/
theorem claim_C10 (d : Sf2Data) (hmel : d.isDrumKit = false) :
    (∀ i, i < (prepareSamples d).length →
        (sampleAt (prepareSamples d) i).sampleType = 2 →
        0 < i ∧ (sampleAt (prepareSamples d) (i - 1)).sampleType = 4
          ∧ (sampleAt (prepareSamples d) (i - 1)).rootNote
              = (sampleAt (prepareSamples d) i).rootNote)
    ∧ (∀ note : Nat, note < 128 →
        (sampleAt (prepareSamples d)
            ((buildNoteToSampleIndex (prepareSamples d)).getD note 0)).sampleType
          ≠ 2)
    ∧ (∀ z ∈ buildInstrumentZones (prepareSamples d)
          (buildNoteToSampleIndex (prepareSamples d)),
        (sampleAt (prepareSamples d) z.sampleID).sampleType = 2 →
          z.pan = 500) := by
  obtain ⟨hchain, hhead⟩ := prepareSamples_chain d
  have hpar := pool_paired (prepareSamples d) hchain hhead
  refine ⟨hpar, ?_, ?_⟩
  · intro note hnote
    exact noteMap_avoids_right (prepareSamples d) (prepareSamples_ne_nil d)
      hpar note hnote
  · intro z hz
    rw [biz_eq] at hz
    obtain ⟨r, hr, hm⟩ := List.mem_flatMap.mp hz
    exact push_pan _ _ _ _ z hm

/-- Witness for `claim_C10` at the single-stereo-sample input. -/
theorem claim_C10_witness :
    stereoData.isDrumKit = false
    ∧ ((∀ i, i < (prepareSamples stereoData).length →
          (sampleAt (prepareSamples stereoData) i).sampleType = 2 →
          0 < i ∧ (sampleAt (prepareSamples stereoData) (i - 1)).sampleType = 4
            ∧ (sampleAt (prepareSamples stereoData) (i - 1)).rootNote
                = (sampleAt (prepareSamples stereoData) i).rootNote)
      ∧ (∀ note : Nat, note < 128 →
          (sampleAt (prepareSamples stereoData)
              ((buildNoteToSampleIndex
                  (prepareSamples stereoData)).getD note 0)).sampleType
            ≠ 2)
      ∧ (∀ z ∈ buildInstrumentZones (prepareSamples stereoData)
            (buildNoteToSampleIndex (prepareSamples stereoData)),
          (sampleAt (prepareSamples stereoData) z.sampleID).sampleType = 2 →
            z.pan = 500)) :=
  ⟨by decide, claim_C10 stereoData (by decide)⟩
